import Mathlib

/-!
Verification development for the PollsBot decision engine (polls_bot.py).

The Python source is shallowly embedded: pure helper functions become Lean
functions over `String` / `List Char`, the SQLite tables become explicit
lists of records, and the stateful handlers become state-passing functions.
Python `float` arithmetic on vote percentages is modelled exactly over `ℚ`.
Unicode case folding and the `\w`/`\s` regex classes are modelled over the
character repertoire the program actually uses (ASCII plus the Cyrillic
block), matching Python's behaviour on those characters.
-/

namespace PollsBot

/-! ### Character and string helpers (Python `str` methods) -/

/-- Python `str.lower` restricted to the ASCII and Cyrillic repertoire:
uppercase ASCII letters and uppercase Cyrillic (`А`–`Я`, `Ё`) map to their
lowercase forms, everything else is unchanged. -/
def lowerChar (c : Char) : Char :=
  if 'A' ≤ c ∧ c ≤ 'Z' then Char.ofNat (c.toNat + 32)
  else if 0x410 ≤ c.toNat ∧ c.toNat ≤ 0x42F then Char.ofNat (c.toNat + 0x20)
  else if c.toNat = 0x401 then Char.ofNat 0x451
  else c

def lowerStr (s : String) : String := ⟨s.data.map lowerChar⟩

/-- Python whitespace (`str.strip()` / `str.split()` default separators). -/
def isWs (c : Char) : Bool :=
  c = ' ' ∨ c = '\t' ∨ c = '\n' ∨ c = '\x0d' ∨ c = '\x0b' ∨ c = '\x0c'

/-- Python `str.strip()` (strip whitespace from both ends). -/
def stripWs (s : String) : String :=
  ⟨((s.data.dropWhile isWs).reverse.dropWhile isWs).reverse⟩

/-- Python `str.rstrip(chars)`: drop trailing characters from `cs`. -/
def rstripSet (cs : List Char) (s : String) : String :=
  ⟨(s.data.reverse.dropWhile (fun c => cs.contains c)).reverse⟩

/-- Python `str.strip(chars)`: drop characters from `cs` at both ends. -/
def stripSet (cs : List Char) (s : String) : String :=
  ⟨((s.data.dropWhile (fun c => cs.contains c)).reverse.dropWhile
      (fun c => cs.contains c)).reverse⟩

/-- Python `str.split()` with no argument: split on whitespace runs,
dropping empty pieces. -/
def splitWsAux : List Char → List Char → List (List Char)
  | [], acc => if acc.isEmpty then [] else [acc.reverse]
  | c :: rest, acc =>
    if isWs c then
      if acc.isEmpty then splitWsAux rest []
      else acc.reverse :: splitWsAux rest []
    else splitWsAux rest (c :: acc)

def splitWs (s : String) : List String :=
  (splitWsAux s.data []).map (fun l => ⟨l⟩)

/-- `listStarts pat s` : `pat` is an initial segment of `s`. -/
def listStarts : List Char → List Char → Bool
  | [], _ => true
  | _ :: _, [] => false
  | a :: as, b :: bs => a = b && listStarts as bs

/-- Python `sub in s` (substring containment); `listHas s sub`. -/
def listHas (s sub : List Char) : Bool :=
  if listStarts sub s then true
  else
    match s with
    | [] => false
    | _ :: t => listHas t sub

/-- Python `sub in s` on strings. -/
def strHas (s sub : String) : Bool := listHas s.data sub.data

/-! ### Voting-type classification (`determine_voting_type`) -/

/-- The `positive_keywords` list of `determine_voting_type`, verbatim
(duplicates included, as in the source). -/
def positive_keywords : List String :=
  ["за", "да", "одобрить", "согласен", "поддерживаю", "принять", "утвердить",
   "согласие", "поддержка", "одобрение", "утверждение", "принятие",
   "за", "да", "согласен", "поддерживаю", "принимаю", "утверждаю",
   "положительно", "в пользу", "за принятие", "за утверждение",
   "соглашаюсь", "одобряю", "поддерживаю", "принимаю", "утверждаю",
   "да", "конечно", "разумеется", "безусловно", "несомненно",
   "за", "за!", "за.", "за,", "за?", "за...",
   "да", "да!", "да.", "да,", "да?", "да...",
   "согласен", "согласен!", "согласен.", "согласен,", "согласен?",
   "одобряю", "одобряю!", "одобряю.", "одобряю,", "одобряю?",
   "поддерживаю", "поддерживаю!", "поддерживаю.", "поддерживаю,",
   "принимаю", "принимаю!", "принимаю.", "принимаю,", "принимаю?",
   "утверждаю", "утверждаю!", "утверждаю.", "утверждаю,", "утверждаю?"]

/-- The `negative_keywords` list, verbatim. -/
def negative_keywords : List String :=
  ["против", "нет", "отклонить", "не согласен", "отказать",
   "отклонение", "отказ", "несогласие", "против принятия",
   "против", "нет", "не согласен", "отклоняю", "отказываю",
   "отрицательно", "против принятия", "против утверждения",
   "не согласен", "не соглашаюсь", "не одобряю", "не поддерживаю",
   "не принимаю", "не утверждаю", "отклоняю", "отказываю",
   "нет", "не", "ни", "никогда", "ни за что",
   "против", "против!", "против.", "против,", "против?", "против...",
   "нет", "нет!", "нет.", "нет,", "нет?", "нет...",
   "не согласен", "не согласен!", "не согласен.", "не согласен,",
   "не одобряю", "не одобряю!", "не одобряю.", "не одобряю,",
   "не поддерживаю", "не поддерживаю!", "не поддерживаю.", "не поддерживаю,",
   "не принимаю", "не принимаю!", "не принимаю.", "не принимаю,",
   "отклоняю", "отклоняю!", "отклоняю.", "отклоняю,", "отклоняю?",
   "отказываю", "отказываю!", "отказываю.", "отказываю,", "отказываю?"]

/-- The `abstain_keywords` list, verbatim. -/
def abstain_keywords : List String :=
  ["воздержался", "воздержаться", "нейтрально", "не определился",
   "воздержание", "нейтральная позиция", "не определился",
   "воздержался", "нейтрально", "не определился", "не знаю",
   "затрудняюсь ответить", "не могу определиться",
   "воздержался", "воздержался!", "воздержался.", "воздержался,", "воздержался?",
   "воздержаться", "воздержаться!", "воздержаться.", "воздержаться,",
   "нейтрально", "нейтрально!", "нейтрально.", "нейтрально,", "нейтрально?",
   "не определился", "не определился!", "не определился.", "не определился,",
   "не знаю", "не знаю!", "не знаю.", "не знаю,", "не знаю?",
   "затрудняюсь", "затрудняюсь ответить", "затрудняюсь!", "затрудняюсь.",
   "не могу определиться", "не могу определиться!", "не могу определиться.",
   "не определился", "не определился!", "не определился.", "не определился,",
   "не определился?", "не определился...",
   "не знаю", "не знаю!", "не знаю.", "не знаю,", "не знаю?", "не знаю...",
   "затрудняюсь ответить", "затрудняюсь ответить!", "затрудняюсь ответить.",
   "не могу определиться", "не могу определиться!", "не могу определиться.",
   "нейтральная позиция", "нейтральная позиция!", "нейтральная позиция.",
   "воздержание", "воздержание!", "воздержание.", "воздержание,"]

/-- Punctuation stripped from the *end* of a normalized option:
`normalized.rstrip('.,!?;:')`. -/
def optTrailPunct : List Char := ['.', ',', '!', '?', ';', ':']

/-- Punctuation stripped from both ends of a word:
`word.strip('.,!?;:()[]{}"\'')`.  The two brace characters are written
via `Char.ofNat` (code points 123 and 125). -/
def wordPunct : List Char :=
  ['.', ',', '!', '?', ';', ':', '(', ')', '[', ']',
   Char.ofNat 123, Char.ofNat 125, '"', '\'']

/-- The normalization/dedup loop of `determine_voting_type`: skip options
that are empty after `strip()`, lowercase+strip, drop trailing punctuation,
skip results that are empty or already seen (first occurrence kept). -/
def normalizeOptions (options : List String) : List String :=
  (options.foldl
    (fun (acc : List String) opt =>
      if stripWs opt ≠ "" then
        let normalized := rstripSet optTrailPunct (stripWs (lowerStr opt))
        if normalized ≠ "" ∧ ¬ acc.contains normalized then acc ++ [normalized]
        else acc
      else acc)
    [])

/-- `word_clean = word.strip('.,!?;:()[]{}"\'').lower()`. -/
def word_clean (w : String) : String := lowerStr (stripSet wordPunct w)

/-- One keyword test from the matching loop:
`keyword == word_clean or keyword in word_clean or word_clean in keyword
 or keyword in option or option in keyword`. -/
def kwMatch (keyword wc option : String) : Bool :=
  keyword = wc || strHas wc keyword || strHas keyword wc ||
    strHas option keyword || strHas keyword option

/-- An option matches a keyword class iff some of its whitespace-split
words matches some keyword of the class. -/
def optionMatchesAny (option : String) (kws : List String) : Bool :=
  (splitWs option).any (fun w => kws.any (fun kw => kwMatch kw (word_clean w) option))

/-- `determine_voting_type(options)` (src/polls_bot.py:1321).  The
`try/except` wrapper is dropped: every operation in the body is total.
The three `*_matches` index lists are represented by their emptiness
(`has_positive` …), which is all the source reads; an option is counted
for `negative`/`abstain` only if no earlier class claimed it, exactly as
in the source's `if i not in positive_matches` guards. -/
def determine_voting_type (options : List String) : String :=
  let options_lower := normalizeOptions options
  if options_lower.isEmpty then "choice"
  else
    let has_positive := options_lower.any (fun o => optionMatchesAny o positive_keywords)
    let has_negative := options_lower.any (fun o =>
      !(optionMatchesAny o positive_keywords) && optionMatchesAny o negative_keywords)
    let has_abstain := options_lower.any (fun o =>
      !(optionMatchesAny o positive_keywords) && !(optionMatchesAny o negative_keywords)
        && optionMatchesAny o abstain_keywords)
    let num_options := options_lower.length
    if num_options = 2 ∧ has_positive ∧ has_negative then "binary"
    else if num_options = 3 ∧ has_positive ∧ has_negative ∧ has_abstain then "approval"
    else if num_options > 3 then "choice"
    else if has_positive ∧ has_negative ∧ has_abstain then "approval"
    else if has_positive ∧ has_negative then "binary"
    else "choice"

/-! ### Decision status (`check_decision_status`) -/

/-- The columns of a `polls` row that the decision logic reads.  `options`
holds the already-split option list (the table stores them `'|'`-joined;
the split is a transport detail).  `voting_type` is `""` when the column
is NULL/empty (both are falsy in `saved_voting_type if saved_voting_type
else …`).  `max_participants` has SQL default 0, and 0 means "no cap".
`decision_number` is NULL (`none`) until assigned. -/
structure Poll where
  poll_id : String
  options : List String
  threshold : ℚ
  total_voters : ℕ
  status : String
  max_participants : ℕ
  voting_type : String
  decision_number : Option ℕ
  decision_status : String
deriving DecidableEq, Repr

/-- The dict returned by `check_decision_status`.  The early returns carry
only `status`/`percentage`/`threshold`; the success path additionally
echoes the plurality option and poll fields, modelled as `Option`s. -/
structure DecisionInfo where
  status : String
  percentage : ℚ
  threshold : ℚ
  max_option_id : Option ℕ
  max_votes : Option ℕ
deriving DecidableEq, Repr

/-- The seven-keyword affirmative test used by both the `approval` and
`binary` branches: `any(keyword in max_option_text.lower() for keyword in
positive_keywords)` with the local short list. -/
def short_positive_keywords : List String :=
  ["за", "да", "одобрить", "согласен", "поддерживаю", "принять", "утвердить"]

def is_positive_option (text : String) : Bool :=
  short_positive_keywords.any (fun kw => strHas (lowerStr text) kw)

/-- The shared shortfall rule: closed polls are always `rejected`;
otherwise `rejected` once `total_voters >= 3`, else `pending`. -/
def shortfall_status (poll_status : String) (total_voters : ℕ) : String :=
  if poll_status = "closed" then "rejected"
  else if total_voters ≥ 3 then "rejected" else "pending"

/-- `voting_type = saved_voting_type if saved_voting_type else
self.determine_voting_type(options)` (NULL and `''` are both falsy). -/
def effective_voting_type (p : Poll) : String :=
  if p.voting_type ≠ "" then p.voting_type else determine_voting_type p.options

/-- `base_count = max_participants if max_participants and
max_participants > 0 else total_voters`. -/
def base_count (p : Poll) : ℕ :=
  if p.max_participants > 0 then p.max_participants else p.total_voters

/-- `check_decision_status(poll_id)` (src/polls_bot.py:1500), as a pure
function of the poll row and of `votes_data`, the per-option vote counts
returned by the `GROUP BY option_id ORDER BY vote_count DESC` query (head
= plurality option).  An out-of-range plurality index raises `IndexError`
at `options[max_option_id]` in Python, which the `except` turns into the
`"error"` dict; both `except` returns hardcode threshold 50. -/
def check_decision_status (p : Poll) (votes_data : List (ℕ × ℕ)) : DecisionInfo :=
  if p.total_voters = 0 then ⟨"pending", 0, p.threshold, none, none⟩
  else
    match votes_data with
    | [] => ⟨"pending", 0, p.threshold, none, none⟩
    | (max_option_id, max_votes) :: _ =>
      if max_option_id < p.options.length then
        let max_option_text := p.options.getD max_option_id ""
        if effective_voting_type p = "approval" then
          if is_positive_option max_option_text then
            let percentage := ((max_votes : ℚ) / base_count p) * 100
            if percentage ≥ p.threshold - 1/2 then
              ⟨"accepted", percentage, p.threshold, some max_option_id, some max_votes⟩
            else
              ⟨shortfall_status p.status p.total_voters, percentage, p.threshold,
                some max_option_id, some max_votes⟩
          else
            let percentage := ((max_votes : ℚ) / p.total_voters) * 100
            ⟨shortfall_status p.status p.total_voters, percentage, p.threshold,
              some max_option_id, some max_votes⟩
        else if effective_voting_type p = "binary" then
          let percentage := ((max_votes : ℚ) / base_count p) * 100
          if is_positive_option max_option_text ∧ percentage ≥ p.threshold then
            ⟨"accepted", percentage, p.threshold, some max_option_id, some max_votes⟩
          else
            ⟨shortfall_status p.status p.total_voters, percentage, p.threshold,
              some max_option_id, some max_votes⟩
        else
          let percentage := ((max_votes : ℚ) / base_count p) * 100
          if percentage ≥ p.threshold - 1/2 then
            ⟨"accepted", percentage, p.threshold, some max_option_id, some max_votes⟩
          else
            ⟨shortfall_status p.status p.total_voters, percentage, p.threshold,
              some max_option_id, some max_votes⟩
      else ⟨"error", 0, 50, none, none⟩

/-! ### The vote store and the poll table -/

/-- A row of `poll_votes` (`vote_date` is only used to order voter names
in the rendering and plays no role in any counted quantity). -/
structure VoteRow where
  poll_id : String
  user_id : ℕ
  username : String
  option_id : ℕ
deriving DecidableEq, Repr

/-- The two tables the decision engine mutates. -/
structure DB where
  polls : List Poll
  votes : List VoteRow
deriving DecidableEq, Repr

/-- `INSERT OR REPLACE INTO poll_votes` under `UNIQUE(poll_id, user_id)`:
SQLite deletes any conflicting row and inserts the new one. -/
def insertOrReplaceVote (t : List VoteRow) (v : VoteRow) : List VoteRow :=
  t.filter (fun r => !(r.poll_id == v.poll_id && r.user_id == v.user_id)) ++ [v]

/-- `SELECT … FROM poll_votes WHERE poll_id = ?`. -/
def rowsFor (t : List VoteRow) (pid : String) : List VoteRow :=
  t.filter (fun r => r.poll_id == pid)

/-- The `(poll_id, user_id)` key column pair of the `UNIQUE` constraint. -/
def voteKeys (t : List VoteRow) : List (String × ℕ) :=
  t.map (fun r => (r.poll_id, r.user_id))

/-- The rows holding one `(poll, voter)` key. -/
def keyRows (t : List VoteRow) (pid : String) (uid : ℕ) : List VoteRow :=
  t.filter (fun r => r.poll_id == pid && r.user_id == uid)

/-- Casting a sequence of votes (each an `INSERT OR REPLACE`). -/
def castVotes (t : List VoteRow) (vs : List VoteRow) : List VoteRow :=
  vs.foldl insertOrReplaceVote t

/-- `SELECT COUNT(DISTINCT user_id) FROM poll_votes WHERE poll_id = ?`. -/
def distinctVoters (t : List VoteRow) (pid : String) : ℕ :=
  ((rowsFor t pid).map (fun r => r.user_id)).dedup.length

/-- Insertion sort by a boolean "comes first" relation (used for the SQL
`ORDER BY` clauses and Python `sorted`). -/
def insertLe {α : Type} (le : α → α → Bool) (x : α) : List α → List α
  | [] => [x]
  | y :: ys => if le x y then x :: y :: ys else y :: insertLe le x ys

def sortLe {α : Type} (le : α → α → Bool) : List α → List α
  | [] => []
  | x :: xs => insertLe le x (sortLe le xs)

/-- `SELECT option_id, COUNT(*) … GROUP BY option_id ORDER BY vote_count
DESC` for one poll.  SQL leaves the order among equal counts unspecified;
the sort below picks one such order. -/
def groupCounts (t : List VoteRow) (pid : String) : List (ℕ × ℕ) :=
  let rows := rowsFor t pid
  let opts := (rows.map (fun r => r.option_id)).dedup
  sortLe (fun a b => b.2 ≤ a.2)
    (opts.map (fun o => (o, (rows.filter (fun r => r.option_id == o)).length)))

def findPoll (db : DB) (pid : String) : Option Poll :=
  db.polls.find? (fun q => q.poll_id == pid)

def updatePoll (db : DB) (pid : String) (f : Poll → Poll) : DB :=
  { db with polls := db.polls.map (fun q => if q.poll_id == pid then f q else q) }

/-! ### Decision numbers -/

/-- `get_next_decision_number` (src/polls_bot.py:1307):
`SELECT MAX(decision_number) FROM polls WHERE decision_number IS NOT NULL`;
the result row always exists, and `if result and result[0][0]` treats both
NULL and 0 as "no number yet". -/
def get_next_decision_number (db : DB) : ℕ :=
  match (db.polls.filterMap (fun p => p.decision_number)).max? with
  | none => 1
  | some m => if m = 0 then 1 else m + 1

/-- `assign_decision_number` (src/polls_bot.py:1314). -/
def assign_decision_number (db : DB) (pid : String) : DB :=
  updatePoll db pid (fun p => { p with decision_number := some (get_next_decision_number db) })

/-- Python truthiness of the `decision_number` column: NULL and 0 are
falsy (`if not decision_number`). -/
def truthyNum : Option ℕ → Bool
  | none => false
  | some n => n ≠ 0

/-- The decision-status block of `format_poll_message`
(src/polls_bot.py:1778-1824), i.e. the only part of the rendering that
writes to the store.  `show_results` is the call argument;
`show_decision_status` is the user/config option `get_opt(
'show_decision_status')`.  The option `show_decision_numbers` only shapes
the message text and is omitted.  `total_votes` is the number of vote
rows of the poll.  A decision number is assigned — and `decision_status`
cached — only under `if not decision_number`, when the computed status is
`accepted`, or `rejected` with `total_votes >= 3 or status == 'closed'`. -/
def render_decision_core (db : DB) (pid : String) (p : Poll)
    (show_results show_decision_status : Bool) : DB :=
  if show_results ∧ (rowsFor db.votes pid).length > 0 then
    if show_decision_status then
      if (check_decision_status p (groupCounts db.votes pid)).status = "accepted" then
        if ¬ truthyNum p.decision_number then
          updatePoll (assign_decision_number db pid) pid
            (fun q => { q with decision_status := "accepted" })
        else db
      else if (check_decision_status p (groupCounts db.votes pid)).status = "rejected" ∧
          ((rowsFor db.votes pid).length ≥ 3 ∨ p.status = "closed") then
        if ¬ truthyNum p.decision_number then
          updatePoll (assign_decision_number db pid) pid
            (fun q => { q with decision_status := "rejected" })
        else db
      else db
    else db
  else db

def render_decision_step (db : DB) (pid : String)
    (show_results show_decision_status : Bool) : DB :=
  match findPoll db pid with
  | none => db
  | some p => render_decision_core db pid p show_results show_decision_status

/-! ### The vote handler -/

inductive VoteOutcome
  | notFound
  | pollClosed
  | forbidden
  | recorded (auto_closed : Bool)
deriving DecidableEq, Repr

/-- The vote-recording writes of `vote_handler`: `INSERT OR REPLACE` the
vote row, then `UPDATE polls SET total_voters = (SELECT COUNT(DISTINCT
user_id) …)`. -/
def db_after_vote (db : DB) (pid : String) (uid : ℕ) (uname : String)
    (oid : ℕ) : DB :=
  let db₁ : DB := { db with votes := insertOrReplaceVote db.votes ⟨pid, uid, uname, oid⟩ }
  updatePoll db₁ pid (fun q => { q with total_voters := distinctVoters db₁.votes pid })

/-- The auto-close test of `vote_handler`: re-query the poll and check
`max_participants and max_participants > 0 and total_voters >=
max_participants`. -/
def auto_close_reached (db : DB) (pid : String) : Bool :=
  match findPoll db pid with
  | none => false
  | some q => decide (q.max_participants > 0 ∧ q.total_voters ≥ q.max_participants)

/-- `vote_handler` (src/polls_bot.py:2550), as a transition on the store.
`can_vote` stands for the externally-decided permission test (`use`-level
permissions or confirmed chat membership); `show_decision_status` is the
voting user's rendering option.  Store writes are assumed to succeed (the
`success` flag).  Effects in source order: replace-insert the vote,
recompute `total_voters` as the distinct-voter count, auto-close when a
positive cap is reached, then re-render the poll message (which may
assign a decision number).  A non-active poll is re-rendered and reported
closed without touching the vote. -/
def vote_handler_step (db : DB) (pid : String) (uid : ℕ) (uname : String)
    (oid : ℕ) (can_vote : Bool) (show_decision_status : Bool) :
    DB × VoteOutcome :=
  match findPoll db pid with
  | none => (db, .notFound)
  | some p =>
    if p.status ≠ "active" then
      (render_decision_step db pid true show_decision_status, .pollClosed)
    else if ¬ can_vote then (db, .forbidden)
    else
      let db₂ := db_after_vote db pid uid uname oid
      let auto_closed := auto_close_reached db₂ pid
      let db₃ :=
        if auto_closed then updatePoll db₂ pid (fun q => { q with status := "closed" })
        else db₂
      (render_decision_step db₃ pid true show_decision_status, .recorded auto_closed)

/-! ### Template engine (`extract_variables`, `substitute_variables`)

The variable regex is
`\{([\w\sА-Яа-яЁёA-Za-z0-9@#\-\.,:;/!\?&%+='"\(\)\[\]]{1,30})\}` with
`re.UNICODE`.  The classes `\w`/`\s` are modelled over the repertoire the
program uses: ASCII letters/digits/underscore, the Cyrillic block
U+0400–U+04FF (which contains `А-Яа-яЁё`), and ASCII whitespace.  Braces
are not in the class, so names cannot nest. -/

def openBrace : Char := Char.ofNat 123
def closeBrace : Char := Char.ofNat 125

def allowedVarChar (c : Char) : Bool :=
  c.isAlpha || c.isDigit || c = '_' ||
  (0x400 ≤ c.toNat && c.toNat ≤ 0x4FF) || isWs c ||
  ['@', '#', '-', '.', ',', ':', ';', '/', '!', '?', '&', '%', '+', '=',
   '\'', '"', '(', ')', '[', ']'].contains c

/-- `re.findall` of the variable pattern: at each `{`, the greedy
bounded class can only close on the single run of allowed characters
that follows (braces are excluded from the class), so a match exists
iff that run has length `1..30` and is followed by `}`.  On a failed
match the engine resumes one character later.  The scan is structured
over an explicit fuel (one unit per character) so that the kernel can
evaluate it; the fuel never runs out, because every step consumes at
least one character (`findVarsGo_congr` below). -/
def findVarsGo : ℕ → List Char → List (List Char)
  | 0, _ => []
  | _, [] => []
  | fuel + 1, c :: rest =>
    if c = openBrace then
      let r := (rest.takeWhile allowedVarChar).length
      if 1 ≤ r ∧ r ≤ 30 ∧ rest.get? r = some closeBrace then
        rest.take r :: findVarsGo fuel (rest.drop (r + 1))
      else findVarsGo fuel rest
    else findVarsGo fuel rest

def findVarsAux (s : List Char) : List (List Char) := findVarsGo s.length s

def findVars (text : String) : List String :=
  (findVarsAux text.data).map (fun l => ⟨l⟩)

/-- `extract_variables(text)` (src/polls_bot.py:1178):
`sorted(list(set(findall(...))))`; Python sorts strings by code points,
as Lean's `String` order does. -/
def extract_variables (text : String) : List String :=
  sortLe (fun a b => decide (a ≤ b)) (findVars text).dedup

/-- Python `str.replace`: replace every non-overlapping occurrence of
`pat`, scanning left to right.  The handler never calls it with an
empty pattern; that case is returned unchanged to keep the function
total.  Structured over an explicit fuel (one unit per
character) so that the kernel can evaluate it; the fuel never runs out,
because every step consumes at least one character when `pat` is
non-empty (`replaceGo_congr` below). -/
def replaceGo (pat rep : List Char) : ℕ → List Char → List Char
  | 0, s => s
  | _, [] => []
  | fuel + 1, c :: rest =>
    if listStarts pat (c :: rest) then
      rep ++ replaceGo pat rep fuel ((c :: rest).drop pat.length)
    else c :: replaceGo pat rep fuel rest

def replaceAll (s pat rep : List Char) : List Char :=
  if pat.isEmpty then s else replaceGo pat rep s.length s

def strReplace (s pat rep : String) : String := ⟨replaceAll s.data pat.data rep.data⟩

/-- `f"{{{var}}}"`. -/
def braced (v : String) : String := ⟨openBrace :: v.data ++ [closeBrace]⟩

/-- `f"[{var}]"`. -/
def bracketed (v : String) : String := ⟨'[' :: v.data ++ [']']⟩

/-- `substitute_variables(text, values)` (src/polls_bot.py:1183).
`values` is the dict as its ordered key/value pairs (Python dicts
iterate in insertion order).  First each supplied `{name}` is replaced
by its value; then every `{name}` still matched by the variable regex is
replaced by `[name]`. -/
def substitute_variables (text : String) (values : List (String × String)) : String :=
  let result := values.foldl
    (fun res vv =>
      if strHas res (braced vv.1) then strReplace res (braced vv.1) vv.2 else res)
    text
  (findVars result).foldl (fun res v => strReplace res (braced v) (bracketed v)) result

/-! ### Specification vocabulary for the template engine

To state what `extract_variables`/`substitute_variables` do on texts
whose braces all belong to well-formed variable spans, such texts are
presented as item lists: a literal brace-free segment, or a `{name}`
span.  `assembleI` renders an item list back to the raw character
stream; these definitions express the *specification* the code is
compared against, not code of the repository. -/

/-- The characters of the literal `{name}` placeholder. -/
def spanPattern (k : List Char) : List Char := openBrace :: (k ++ [closeBrace])

/-- Render items: a left item is a literal segment, a right item a
`{name}` span. -/
def assembleI : List (List Char ⊕ List Char) → List Char
  | [] => []
  | .inl s :: r => s ++ assembleI r
  | .inr v :: r => openBrace :: (v ++ closeBrace :: assembleI r)

/-- The span names of an item list, in order. -/
def spanNames (items : List (List Char ⊕ List Char)) : List (List Char) :=
  items.filterMap (fun it => match it with | .inr v => some v | .inl _ => none)

/-- A brace-free literal segment. -/
def segOkB (s : List Char) : Bool :=
  s.all (fun c => !(c = openBrace ∨ c = closeBrace))

/-- A legal variable name: nonempty, at most 30 characters, all from the
regex class. -/
def nameOkB (v : List Char) : Bool :=
  !v.isEmpty && v.length ≤ 30 && v.all allowedVarChar

def itemOk : (List Char ⊕ List Char) → Bool
  | .inl s => segOkB s
  | .inr v => nameOkB v

def itemsOk (items : List (List Char ⊕ List Char)) : Bool := items.all itemOk

/-- Item-wise effect of one `str.replace` of `{k}` by `rep`. -/
def replItem (k rep : List Char) : (List Char ⊕ List Char) → (List Char ⊕ List Char)
  | .inl s => .inl s
  | .inr v => if v = k then .inl rep else .inr v

/-- Item-wise effect of the whole replacement loop of
`substitute_variables`: a span whose name has an entry (first match, as
in the Python dict) becomes its value. -/
def coreAux (values : List (String × String)) :
    (List Char ⊕ List Char) → (List Char ⊕ List Char)
  | .inl s => .inl s
  | .inr v =>
    match values.find? (fun kv => kv.1.data == v) with
    | some kv => .inl kv.2.data
    | none => .inr v

/-- Item-wise effect of the unresolved-variable fallback: a span still
present becomes the literal `[name]`. -/
def bracketAux : (List Char ⊕ List Char) → (List Char ⊕ List Char)
  | .inl s => .inl s
  | .inr v => .inl ('[' :: v ++ [']'])

/-- The combined specification of `substitute_variables` on spans:
supplied names get their value, unsupplied names get `[name]`. -/
def substItem (values : List (String × String)) :
    (List Char ⊕ List Char) → (List Char ⊕ List Char)
  | .inl s => .inl s
  | .inr v =>
    match values.find? (fun kv => kv.1.data == v) with
    | some kv => .inl kv.2.data
    | none => .inl ('[' :: v ++ [']'])

/-! ### Rate limiter -/

def RATE_LIMIT_WINDOW : ℚ := 3600
def MAX_USERS_IN_MEMORY : ℕ := 1000

/-- `RateLimiter`: `requests` is the `defaultdict(list)` as an ordered
association list (Python dicts preserve insertion order), timestamps are
`time.time()` values modelled over `ℚ`. -/
structure RateLimiter where
  requests : List (ℕ × List ℚ)
  last_cleanup : ℚ
deriving DecidableEq, Repr

def getReqs (m : List (ℕ × List ℚ)) (uid : ℕ) : List ℚ :=
  match m.find? (fun kv => kv.1 == uid) with
  | some kv => kv.2
  | none => []

/-- Write a user's list back (the in-place `user_reqs[:] = …` /
`append`); a missing key was created by the `defaultdict` access, at the
end of the dict. -/
def setReqs (m : List (ℕ × List ℚ)) (uid : ℕ) (l : List ℚ) : List (ℕ × List ℚ) :=
  if m.any (fun kv => kv.1 == uid) then
    m.map (fun kv => if kv.1 == uid then (uid, l) else kv)
  else m ++ [(uid, l)]

/-- `key=lambda x: max(x[1]) if x[1] else 0`. -/
def maxTime (l : List ℚ) : ℚ :=
  match l.max? with
  | none => 0
  | some m => m

/-- `RateLimiter.cleanup` (src/polls_bot.py:578): if more than
`MAX_USERS_IN_MEMORY` users are tracked, evict the oldest half (smallest
latest-timestamp first); then drop expired timestamps everywhere and
remove users left with an empty history. -/
def cleanup (rl : RateLimiter) (now : ℚ) : RateLimiter :=
  let m₀ := rl.requests
  let m₁ :=
    if m₀.length > MAX_USERS_IN_MEMORY then
      let oldest := (sortLe (fun a b => decide (maxTime a.2 ≤ maxTime b.2)) m₀).take
        (MAX_USERS_IN_MEMORY / 2)
      m₀.filter (fun kv => !(oldest.any (fun o => o.1 == kv.1)))
    else m₀
  let m₂ := m₁.map (fun kv => (kv.1, kv.2.filter (fun t => now - t < RATE_LIMIT_WINDOW)))
  { rl with requests := m₂.filter (fun kv => !kv.2.isEmpty) }

/-- `RateLimiter.is_allowed` (src/polls_bot.py:547): run `cleanup` if 60s
have passed since the last one, drop this user's timestamps outside the
sliding window, deny when `limit` fresh ones remain, otherwise record
`now` and allow. -/
def is_allowed (rl : RateLimiter) (uid : ℕ) (limit : ℕ) (now : ℚ) : Bool × RateLimiter :=
  let rl₁ :=
    if now - rl.last_cleanup > 60 then { cleanup rl now with last_cleanup := now }
    else rl
  let fresh := (getReqs rl₁.requests uid).filter (fun t => now - t < RATE_LIMIT_WINDOW)
  if fresh.length ≥ limit then
    (false, { rl₁ with requests := setReqs rl₁.requests uid fresh })
  else
    (true, { rl₁ with requests := setReqs rl₁.requests uid (fresh ++ [now]) })

/-- A sequence of `is_allowed` calls for one user, returning the verdicts
in order and the final limiter state. -/
def runCalls (uid limit : ℕ) : RateLimiter → List ℚ → List Bool × RateLimiter
  | rl, [] => ([], rl)
  | rl, t :: ts =>
    let br := is_allowed rl uid limit t
    let rest := runCalls uid limit br.2 ts
    (br.1 :: rest.1, rest.2)

/-! ## Theorems -/

/-! ### Helper lemmas about `check_decision_status` -/

lemma shortfall_status_ne_accepted (s : String) (tv : ℕ) :
    shortfall_status s tv ≠ "accepted" := by
  unfold shortfall_status; split_ifs <;> decide

lemma shortfall_status_eq (s : String) (tv : ℕ) :
    shortfall_status s tv = if tv ≥ 3 ∨ s = "closed" then "rejected" else "pending" := by
  unfold shortfall_status
  split_ifs <;> tauto

/-- Branch normal form of `check_decision_status` for a poll with votes
and an in-range plurality option. -/
lemma check_decision_status_cons (p : Poll) (i v : ℕ) (rest : List (ℕ × ℕ))
    (htv : p.total_voters ≠ 0) (hi : i < p.options.length) :
    check_decision_status p ((i, v) :: rest) =
      (if effective_voting_type p = "approval" then
        if is_positive_option (p.options.getD i "") then
          if ((v : ℚ) / base_count p) * 100 ≥ p.threshold - 1/2 then
            ⟨"accepted", ((v : ℚ) / base_count p) * 100, p.threshold, some i, some v⟩
          else
            ⟨shortfall_status p.status p.total_voters, ((v : ℚ) / base_count p) * 100,
              p.threshold, some i, some v⟩
        else
          ⟨shortfall_status p.status p.total_voters, ((v : ℚ) / p.total_voters) * 100,
            p.threshold, some i, some v⟩
      else if effective_voting_type p = "binary" then
        if is_positive_option (p.options.getD i "") ∧
            ((v : ℚ) / base_count p) * 100 ≥ p.threshold then
          ⟨"accepted", ((v : ℚ) / base_count p) * 100, p.threshold, some i, some v⟩
        else
          ⟨shortfall_status p.status p.total_voters, ((v : ℚ) / base_count p) * 100,
            p.threshold, some i, some v⟩
      else
        if ((v : ℚ) / base_count p) * 100 ≥ p.threshold - 1/2 then
          ⟨"accepted", ((v : ℚ) / base_count p) * 100, p.threshold, some i, some v⟩
        else
          ⟨shortfall_status p.status p.total_voters, ((v : ℚ) / base_count p) * 100,
            p.threshold, some i, some v⟩) := by
  unfold check_decision_status
  rw [if_neg htv]
  simp only [if_pos hi]

/-- Any decision on a voted poll is either an acceptance or follows the
shortfall rule. -/
lemma check_decision_status_cases (p : Poll) (i v : ℕ) (rest : List (ℕ × ℕ))
    (htv : p.total_voters ≠ 0) (hi : i < p.options.length) :
    (check_decision_status p ((i, v) :: rest)).status = "accepted" ∨
    (check_decision_status p ((i, v) :: rest)).status =
      shortfall_status p.status p.total_voters := by
  rw [check_decision_status_cons p i v rest htv hi]
  split_ifs <;> first | exact Or.inl rfl | exact Or.inr rfl

/-- **C1.** For a voted poll whose plurality option is affirmative (and
in range), `check_decision_status` reports
`percentage = plurality_votes / base * 100` with
`base = max_participants` when the cap is positive, else `total_voters`
(that is `base_count`), and returns `accepted` iff `percentage ≥
threshold` for voting type `binary` (strict, no tolerance) and iff
`percentage ≥ threshold - 0.5` for `approval` and `choice`. -/
theorem C1_accept_rule (p : Poll) (i v : ℕ) (rest : List (ℕ × ℕ))
    (htv : p.total_voters ≠ 0)
    (hi : i < p.options.length)
    (hpos : is_positive_option (p.options.getD i "") = true) :
    (effective_voting_type p = "binary" →
      (check_decision_status p ((i, v) :: rest)).percentage
          = ((v : ℚ) / base_count p) * 100 ∧
      ((check_decision_status p ((i, v) :: rest)).status = "accepted" ↔
        ((v : ℚ) / base_count p) * 100 ≥ p.threshold)) ∧
    (effective_voting_type p = "approval" ∨ effective_voting_type p = "choice" →
      (check_decision_status p ((i, v) :: rest)).percentage
          = ((v : ℚ) / base_count p) * 100 ∧
      ((check_decision_status p ((i, v) :: rest)).status = "accepted" ↔
        ((v : ℚ) / base_count p) * 100 ≥ p.threshold - 1/2)) := by
  have hsf := shortfall_status_ne_accepted
  rw [check_decision_status_cons p i v rest htv hi]
  constructor
  · intro hb
    rw [if_neg (by rw [hb]; decide), if_pos hb]
    by_cases hth : ((v : ℚ) / base_count p) * 100 ≥ p.threshold
    · rw [if_pos ⟨hpos, hth⟩]
      exact ⟨rfl, ⟨fun _ => hth, fun _ => rfl⟩⟩
    · rw [if_neg (fun hc => hth hc.2)]
      exact ⟨rfl, ⟨fun h => absurd h (hsf _ _), fun h => absurd h hth⟩⟩
  · intro hac
    have hnb : effective_voting_type p ≠ "binary" := by
      rcases hac with h | h <;> rw [h] <;> decide
    rcases hac with ha | hc
    · rw [if_pos ha, if_pos hpos]
      by_cases hth : ((v : ℚ) / base_count p) * 100 ≥ p.threshold - 1/2
      · rw [if_pos hth]
        exact ⟨rfl, ⟨fun _ => hth, fun _ => rfl⟩⟩
      · rw [if_neg hth]
        exact ⟨rfl, ⟨fun h => absurd h (hsf _ _), fun h => absurd h hth⟩⟩
    · rw [if_neg (by rw [hc]; decide), if_neg hnb]
      by_cases hth : ((v : ℚ) / base_count p) * 100 ≥ p.threshold - 1/2
      · rw [if_pos hth]
        exact ⟨rfl, ⟨fun _ => hth, fun _ => rfl⟩⟩
      · rw [if_neg hth]
        exact ⟨rfl, ⟨fun h => absurd h (hsf _ _), fun h => absurd h hth⟩⟩

/-- Witness for C1: a binary `Да/Нет` poll, threshold 50, three voters
`2 : 1`, no cap — accepted at `200/3 %`. -/
theorem C1_accept_rule_witness :
    ((⟨"p", ["Да", "Нет"], 50, 3, "active", 0, "binary", none,
        "pending"⟩ : Poll).total_voters ≠ 0) ∧
    (check_decision_status
        ⟨"p", ["Да", "Нет"], 50, 3, "active", 0, "binary", none, "pending"⟩
        [(0, 2), (1, 1)]).status = "accepted" :=
  ⟨by decide,
    ((C1_accept_rule _ 0 2 [(1, 1)] (by decide) (by decide) (by decide)).1
      (by decide)).2.mpr (by norm_num [base_count])⟩

/-- **C2, counterexample.** The claim reads a non-affirmative plurality
as failing the acceptance condition for every voting type; but for
`choice` the code accepts the plurality option on share alone: a 4-option
`choice` poll with 3 voters all on the non-affirmative option `a` is
`accepted`, where the claim requires `rejected` (`total_voters ≥ 3`). -/
theorem C2_counterexample :
    is_positive_option ((["a", "b", "c", "d"] : List String).getD 0 "") = false ∧
    (⟨"p", ["a", "b", "c", "d"], 50, 3, "active", 0, "choice", none,
        "pending"⟩ : Poll).total_voters ≥ 3 ∧
    (check_decision_status
        ⟨"p", ["a", "b", "c", "d"], 50, 3, "active", 0, "choice", none, "pending"⟩
        [(0, 3)]).status = "accepted" ∧
    (check_decision_status
        ⟨"p", ["a", "b", "c", "d"], 50, 3, "active", 0, "choice", none, "pending"⟩
        [(0, 3)]).status ≠ "rejected" := by
  have hacc : (check_decision_status
      ⟨"p", ["a", "b", "c", "d"], 50, 3, "active", 0, "choice", none, "pending"⟩
      [(0, 3)]).status = "accepted" := by
    rw [check_decision_status_cons _ 0 3 [] (by decide) (by decide),
        if_neg (by decide), if_neg (by decide), if_pos (by norm_num [base_count])]
  exact ⟨by decide, by decide, hacc, by rw [hacc]; decide⟩

/-- **C2, amended.** For a voted poll (in-range plurality) on which the
acceptance condition of the code fails — i.e. `check_decision_status`
does not return `accepted`; for `binary`/`approval` that is a
non-affirmative plurality or an affirmative share below the (tolerated)
threshold, for `choice` a plurality share below `threshold - 0.5` — the
returned status is `rejected` when `total_voters ≥ 3` or the poll is
closed, and `pending` otherwise. -/
theorem C2_amended_shortfall (p : Poll) (i v : ℕ) (rest : List (ℕ × ℕ))
    (htv : p.total_voters ≠ 0) (hi : i < p.options.length)
    (hna : (check_decision_status p ((i, v) :: rest)).status ≠ "accepted") :
    (check_decision_status p ((i, v) :: rest)).status =
      if p.total_voters ≥ 3 ∨ p.status = "closed" then "rejected" else "pending" := by
  rcases check_decision_status_cases p i v rest htv hi with h | h
  · exact absurd h hna
  · rw [h, shortfall_status_eq]

/-- Witness for C2: binary poll, negative plurality, three voters, open
poll — `rejected`. -/
theorem C2_amended_shortfall_witness :
    (check_decision_status
        ⟨"p", ["За", "Против"], 50, 3, "active", 0, "binary", none, "pending"⟩
        [(1, 2), (0, 1)]).status ≠ "accepted" ∧
    (check_decision_status
        ⟨"p", ["За", "Против"], 50, 3, "active", 0, "binary", none, "pending"⟩
        [(1, 2), (0, 1)]).status = "rejected" := by
  have hr : (check_decision_status
      ⟨"p", ["За", "Против"], 50, 3, "active", 0, "binary", none, "pending"⟩
      [(1, 2), (0, 1)]).status = "rejected" := by
    rw [check_decision_status_cons _ 1 2 [(0, 1)] (by decide) (by decide),
        if_neg (by decide), if_pos (by decide),
        if_neg (fun hc => absurd hc.1 (by decide))]
    decide
  have hna : (check_decision_status
      ⟨"p", ["За", "Против"], 50, 3, "active", 0, "binary", none, "pending"⟩
      [(1, 2), (0, 1)]).status ≠ "accepted" := by rw [hr]; decide
  exact ⟨hna,
    (C2_amended_shortfall _ 1 2 [(0, 1)] (by decide) (by decide) hna).trans (by decide)⟩

/-! ### Helper lemmas about the vote store -/

lemma keys_filter (t : List VoteRow) (p : VoteRow → Bool)
    (q : String × ℕ → Bool) (hq : ∀ r, p r = q (r.poll_id, r.user_id)) :
    voteKeys (t.filter p) = (voteKeys t).filter q := by
  induction t with
  | nil => rfl
  | cons r rt ih =>
    simp only [voteKeys, List.filter_cons, List.map_cons, hq]
    by_cases h : q (r.poll_id, r.user_id)
    · simp [h]; exact ih
    · simp [h]; exact ih

lemma insertOrReplaceVote_keys_nodup (t : List VoteRow) (v : VoteRow)
    (h : (voteKeys t).Nodup) : (voteKeys (insertOrReplaceVote t v)).Nodup := by
  unfold insertOrReplaceVote
  have hk := keys_filter t
    (fun r => !(r.poll_id == v.poll_id && r.user_id == v.user_id))
    (fun k => !(k.1 == v.poll_id && k.2 == v.user_id)) (fun r => rfl)
  have hsplit : voteKeys
      (t.filter (fun r => !(r.poll_id == v.poll_id && r.user_id == v.user_id)) ++ [v])
      = (voteKeys t).filter (fun k => !(k.1 == v.poll_id && k.2 == v.user_id))
          ++ [(v.poll_id, v.user_id)] := by
    simp only [voteKeys, List.map_append, List.map_cons, List.map_nil]
    rw [← voteKeys, ← voteKeys, hk]
  rw [hsplit]
  simp only [List.nodup_append, List.nodup_cons, List.not_mem_nil, List.nodup_nil]
  refine ⟨h.filter _, ⟨by simp, trivial⟩, ?_⟩
  intro k hkmem
  have hcond := List.of_mem_filter hkmem
  simp only [Bool.not_eq_true', Bool.and_eq_false_iff] at hcond
  intro hcon
  simp only [List.mem_singleton] at hcon
  subst hcon
  rcases hcond with h1 | h1 <;> simp at h1

lemma rowsFor_append (t s : List VoteRow) (pid : String) :
    rowsFor (t ++ s) pid = rowsFor t pid ++ rowsFor s pid := by
  simp [rowsFor, List.filter_append]

lemma rowsFor_filter (t : List VoteRow) (p : VoteRow → Bool) (pid : String) :
    rowsFor (t.filter p) pid = (rowsFor t pid).filter p := by
  simp only [rowsFor, List.filter_filter]
  congr 1
  funext r
  rw [Bool.and_comm]

lemma insertOrReplaceVote_rowsFor {pid : String} (t : List VoteRow) (v : VoteRow)
    (done : List VoteRow)
    (hm : rowsFor t pid = done) (hv : v.poll_id = pid)
    (hdis : ∀ r ∈ done, r.user_id ≠ v.user_id) :
    rowsFor (insertOrReplaceVote t v) pid = done ++ [v] := by
  unfold insertOrReplaceVote
  rw [rowsFor_append, rowsFor_filter, hm]
  have h1 : done.filter (fun r => !(r.poll_id == v.poll_id && r.user_id == v.user_id))
      = done := by
    apply List.filter_eq_self.2
    intro r hr
    simp only [Bool.not_eq_eq_eq_not, Bool.not_true, Bool.and_eq_false_iff]
    right
    simp [hdis r hr]
  rw [h1]
  have h2 : rowsFor [v] pid = [v] := by simp [rowsFor, hv]
  rw [h2]

/-- Casting votes with pairwise-distinct voters onto a table holding
`done` rows for this poll (voter-disjoint from the new votes) appends
exactly the new rows. -/
lemma castVotes_rowsFor (pid : String) (vs : List VoteRow) :
    ∀ (t : List VoteRow) (done : List VoteRow),
    rowsFor t pid = done → (∀ r ∈ vs, r.poll_id = pid) →
    ((done ++ vs).map (fun r => r.user_id)).Nodup →
    rowsFor (castVotes t vs) pid = done ++ vs := by
  induction vs with
  | nil => intro t done hm _ _; simpa [castVotes] using hm
  | cons v vt ih =>
    intro t done hm hp hnd
    have hv : v.poll_id = pid := hp v (List.mem_cons_self _ _)
    have hdis : ∀ r ∈ done, r.user_id ≠ v.user_id := by
      intro r hr
      have hrm : r.user_id ∈ done.map (fun r => r.user_id) := List.mem_map_of_mem _ hr
      have hvmem : v.user_id ∈ (v :: vt).map (fun r => r.user_id) := by simp
      intro hcon
      rw [List.map_append] at hnd
      exact (List.disjoint_of_nodup_append hnd) hrm (by rw [hcon] at *; exact hvmem)
    have hstep := insertOrReplaceVote_rowsFor t v done hm hv hdis
    have hfold : castVotes t (v :: vt) = castVotes (insertOrReplaceVote t v) vt := rfl
    rw [hfold]
    have hrec := ih (insertOrReplaceVote t v) (done ++ [v]) hstep
      (fun r hr => hp r (List.mem_cons_of_mem _ hr)) (by simpa using hnd)
    rw [hrec]
    simp

lemma insertOrReplaceVote_keyRows (t : List VoteRow) (v : VoteRow) :
    keyRows (insertOrReplaceVote t v) v.poll_id v.user_id = [v] := by
  unfold insertOrReplaceVote keyRows
  rw [List.filter_append, List.filter_filter]
  have h1 : (t.filter fun r =>
      (r.poll_id == v.poll_id && r.user_id == v.user_id) &&
      !(r.poll_id == v.poll_id && r.user_id == v.user_id)) = [] := by
    apply List.filter_eq_nil_iff.2
    intro r _
    simp [Bool.and_not_self]
  rw [h1]
  simp

lemma filter_not_length {α : Type} (p : α → Bool) (t : List α) :
    (t.filter (fun r => !(p r))).length + (t.filter p).length = t.length := by
  induction t with
  | nil => rfl
  | cons r rt ih => by_cases h : p r <;> simp [List.filter_cons, h] <;> omega

lemma filter_singleton_of_nodup {α : Type} (l : List α) (a : α) (p : α → Bool)
    (hp : ∀ x, p x = true ↔ x = a) (hnd : l.Nodup) (ha : a ∈ l) :
    (l.filter p).length = 1 := by
  induction l with
  | nil => cases ha
  | cons x xs ih =>
    rcases List.nodup_cons.1 hnd with ⟨hx, hxs⟩
    by_cases h : p x
    · have hxa : x = a := (hp x).1 h
      subst hxa
      have hempty : xs.filter p = [] := by
        apply List.filter_eq_nil_iff.2
        intro y hy hpy
        exact hx (((hp y).1 hpy) ▸ hy)
      simp [List.filter_cons, h, hempty]
    · have hxa : x ≠ a := fun hc => h ((hp x).2 hc)
      have ha' : a ∈ xs := by
        rcases List.mem_cons.1 ha with h' | h'
        · exact absurd h'.symm hxa
        · exact h'
      simp [List.filter_cons, h]
      exact ih hxs ha'

lemma insertOrReplaceVote_length (t : List VoteRow) (v : VoteRow)
    (hnd : (voteKeys t).Nodup)
    (hmem : (v.poll_id, v.user_id) ∈ voteKeys t) :
    (insertOrReplaceVote t v).length = t.length := by
  unfold insertOrReplaceVote
  rw [List.length_append]
  have hone : (t.filter
      (fun r => r.poll_id == v.poll_id && r.user_id == v.user_id)).length = 1 := by
    have hkeys : ((voteKeys t).filter
        (fun k => k.1 == v.poll_id && k.2 == v.user_id)).length = 1 := by
      apply filter_singleton_of_nodup _ (v.poll_id, v.user_id) _ _ hnd hmem
      intro ⟨a, b⟩
      simp [Prod.ext_iff]
    rw [← hkeys]
    have hkf := keys_filter t (fun r => r.poll_id == v.poll_id && r.user_id == v.user_id)
      (fun k => k.1 == v.poll_id && k.2 == v.user_id) (fun r => rfl)
    rw [← hkf]
    simp [voteKeys]
  have hsplit := filter_not_length
    (fun r => r.poll_id == v.poll_id && r.user_id == v.user_id) t
  simp only [List.length_cons, List.length_nil]
  omega

lemma map_uid_filter (u : ℕ) (A : List VoteRow) :
    (A.filter (fun r => !(r.user_id == u))).map (fun r => r.user_id)
      = (A.map (fun r => r.user_id)).filter (fun x => !(x == u)) := by
  induction A with
  | nil => rfl
  | cons r rt ih =>
    by_cases h : r.user_id = u <;>
      simp [List.filter_cons, h, ih]

lemma dedup_length_replace (l : List ℕ) (u : ℕ) (hu : u ∈ l) :
    ((l.filter (fun x => !(x == u))) ++ [u]).dedup.length = l.dedup.length := by
  rw [← List.card_toFinset, ← List.card_toFinset]
  congr 1
  ext a
  simp only [List.toFinset_append, Finset.mem_union, List.mem_toFinset, List.mem_filter,
    List.mem_singleton, Bool.not_eq_eq_eq_not, Bool.not_true, beq_eq_false_iff_ne]
  by_cases hcase : a = u
  · subst hcase; tauto
  · tauto

lemma insertOrReplaceVote_distinctVoters (t : List VoteRow) (v : VoteRow)
    (hmem : (v.poll_id, v.user_id) ∈ voteKeys t) :
    distinctVoters (insertOrReplaceVote t v) v.poll_id = distinctVoters t v.poll_id := by
  have hvin : v.user_id ∈ (rowsFor t v.poll_id).map (fun r => r.user_id) := by
    rcases List.mem_map.1 hmem with ⟨r, hr, hkey⟩
    apply List.mem_map.2
    refine ⟨r, ?_, congrArg Prod.snd hkey⟩
    unfold rowsFor
    apply List.mem_filter.2
    refine ⟨hr, ?_⟩
    have hrp : r.poll_id = v.poll_id := congrArg Prod.fst hkey
    simp [hrp]
  have hrows : rowsFor (insertOrReplaceVote t v) v.poll_id
      = (rowsFor t v.poll_id).filter (fun r => !(r.user_id == v.user_id)) ++ [v] := by
    unfold insertOrReplaceVote
    rw [rowsFor_append, rowsFor_filter]
    have hv1 : rowsFor [v] v.poll_id = [v] := by simp [rowsFor]
    rw [hv1]
    congr 1
    apply List.filter_congr
    intro r hr
    have hrp : r.poll_id = v.poll_id := by
      have := (List.mem_filter.1 hr).2
      simpa using this
    simp [hrp]
  unfold distinctVoters
  rw [hrows, List.map_append, map_uid_filter]
  simpa using dedup_length_replace ((rowsFor t v.poll_id).map (fun r => r.user_id))
    v.user_id hvin

/-- **C4.** The vote store keeps at most one row per `(poll, voter)`
key: (a) `INSERT OR REPLACE` preserves key uniqueness; (b) casting votes
of pairwise-distinct voters for a poll with no prior rows stores exactly
those rows (N voters ⇒ N rows); (c) a repeat vote by a voter who already
has a row replaces that row — afterwards the voter's rows are exactly
the new one (with the new option index) — without changing the table
size or the poll's distinct-voter count (`total_voters`). -/
theorem C4_vote_store_uniqueness :
    (∀ (t : List VoteRow) (v : VoteRow), (voteKeys t).Nodup →
      (voteKeys (insertOrReplaceVote t v)).Nodup) ∧
    (∀ (pid : String) (t vs : List VoteRow), rowsFor t pid = [] →
      (∀ r ∈ vs, r.poll_id = pid) → (vs.map (fun r => r.user_id)).Nodup →
      rowsFor (castVotes t vs) pid = vs) ∧
    (∀ (t : List VoteRow) (v : VoteRow), (voteKeys t).Nodup →
      (v.poll_id, v.user_id) ∈ voteKeys t →
      keyRows (insertOrReplaceVote t v) v.poll_id v.user_id = [v] ∧
      (insertOrReplaceVote t v).length = t.length ∧
      distinctVoters (insertOrReplaceVote t v) v.poll_id = distinctVoters t v.poll_id) := by
  refine ⟨insertOrReplaceVote_keys_nodup, ?_, ?_⟩
  · intro pid t vs hempty hp hnd
    simpa using castVotes_rowsFor pid vs t [] hempty hp (by simpa using hnd)
  · intro t v hnd hmem
    exact ⟨insertOrReplaceVote_keyRows t v, insertOrReplaceVote_length t v hnd hmem,
      insertOrReplaceVote_distinctVoters t v hmem⟩

/-- Witness for C4: two distinct voters then a repeat vote on poll `p`. -/
theorem C4_vote_store_uniqueness_witness :
    (voteKeys (insertOrReplaceVote [⟨"p", 1, "a", 0⟩] ⟨"p", 2, "b", 1⟩)).Nodup ∧
    rowsFor (castVotes [] [⟨"p", 1, "a", 0⟩, ⟨"p", 2, "b", 1⟩]) "p"
      = [⟨"p", 1, "a", 0⟩, ⟨"p", 2, "b", 1⟩] ∧
    keyRows (insertOrReplaceVote [⟨"p", 1, "a", 0⟩] ⟨"p", 1, "a", 1⟩) "p" 1
      = [⟨"p", 1, "a", 1⟩] ∧
    (insertOrReplaceVote [⟨"p", 1, "a", 0⟩] ⟨"p", 1, "a", 1⟩).length = 1 ∧
    distinctVoters (insertOrReplaceVote [⟨"p", 1, "a", 0⟩] ⟨"p", 1, "a", 1⟩) "p"
      = distinctVoters [⟨"p", 1, "a", 0⟩] "p" := by
  have h3 := C4_vote_store_uniqueness.2.2 [⟨"p", 1, "a", 0⟩] ⟨"p", 1, "a", 1⟩
    (by decide) (by decide)
  exact ⟨C4_vote_store_uniqueness.1 [⟨"p", 1, "a", 0⟩] ⟨"p", 2, "b", 1⟩ (by decide),
    C4_vote_store_uniqueness.2.1 "p" [] [⟨"p", 1, "a", 0⟩, ⟨"p", 2, "b", 1⟩]
      rfl (by decide) (by decide),
    h3.1, h3.2.1, h3.2.2⟩

/-! ### Rendering, decision numbers (C3) and the vote handler (C5) -/

lemma findPoll_updatePoll (db : DB) (pid pid' : String) (f : Poll → Poll)
    (hf : ∀ q, (f q).poll_id = q.poll_id) :
    findPoll (updatePoll db pid f) pid'
      = (findPoll db pid').map (fun q => if q.poll_id == pid then f q else q) := by
  unfold findPoll updatePoll
  rcases db with ⟨polls, votes⟩
  simp only []
  induction polls with
  | nil => rfl
  | cons q qs ih =>
    have hpres : (if q.poll_id == pid then f q else q).poll_id = q.poll_id := by
      by_cases hqq : q.poll_id == pid
      · simp only [hqq, if_pos, hf q]
      · simp [hqq]
    by_cases hq : q.poll_id == pid'
    · rw [List.map_cons]
      rw [List.find?_cons_of_pos, List.find?_cons_of_pos]
      · rfl
      · exact hq
      · rw [show ((if q.poll_id == pid then f q else q).poll_id == pid')
              = (q.poll_id == pid') from by rw [hpres]]
        exact hq
    · rw [List.map_cons]
      rw [List.find?_cons_of_neg, List.find?_cons_of_neg]
      · exact ih
      · simpa using hq
      · rw [show ((if q.poll_id == pid then f q else q).poll_id == pid')
              = (q.poll_id == pid') from by rw [hpres]]
        simpa using hq

lemma updatePoll_votes (db : DB) (pid : String) (f : Poll → Poll) :
    (updatePoll db pid f).votes = db.votes := rfl

lemma render_decision_step_some (db : DB) (pid : String) (sr sd : Bool) (p : Poll)
    (hfp : findPoll db pid = some p) :
    render_decision_step db pid sr sd = render_decision_core db pid p sr sd := by
  unfold render_decision_step
  rw [hfp]

lemma render_decision_core_votes (db : DB) (pid : String) (p : Poll) (sr sd : Bool) :
    (render_decision_core db pid p sr sd).votes = db.votes := by
  unfold render_decision_core
  split_ifs <;> rfl

lemma render_decision_step_votes (db : DB) (pid : String) (sr sd : Bool) :
    (render_decision_step db pid sr sd).votes = db.votes := by
  unfold render_decision_step
  cases h : findPoll db pid with
  | none => rfl
  | some p => exact render_decision_core_votes db pid p sr sd

lemma render_decision_step_truthy (db : DB) (pid : String) (sr sd : Bool) (p : Poll)
    (hfp : findPoll db pid = some p)
    (ht : truthyNum p.decision_number = true) :
    render_decision_step db pid sr sd = db := by
  rw [render_decision_step_some db pid sr sd p hfp]
  unfold render_decision_core
  split_ifs <;> simp_all

lemma render_decision_core_eq_or (db : DB) (pid : String) (p : Poll) (sr sd : Bool) :
    render_decision_core db pid p sr sd = db ∨
    (¬ truthyNum p.decision_number = true ∧
     ((check_decision_status p (groupCounts db.votes pid)).status = "accepted" ∨
      ((check_decision_status p (groupCounts db.votes pid)).status = "rejected" ∧
        ((rowsFor db.votes pid).length ≥ 3 ∨ p.status = "closed"))) ∧
     ∃ s, render_decision_core db pid p sr sd =
       updatePoll (assign_decision_number db pid) pid
         (fun q => { q with decision_status := s })) := by
  unfold render_decision_core
  split_ifs with h1 h2 h3 h4 h5 h6 <;>
    first
      | exact Or.inl rfl
      | exact Or.inr ⟨by assumption, Or.inl (by assumption), _, rfl⟩
      | exact Or.inr ⟨by assumption, Or.inr (by assumption), _, rfl⟩

lemma get_next_decision_number_pos (db : DB) : 0 < get_next_decision_number db := by
  unfold get_next_decision_number
  cases h : (db.polls.filterMap (fun p => p.decision_number)).max? with
  | none => simp [h]
  | some m =>
    simp only [h]
    split_ifs <;> omega

lemma findPoll_poll_id (db : DB) (pid : String) (p : Poll)
    (hfp : findPoll db pid = some p) : (p.poll_id == pid) = true := by
  unfold findPoll at hfp
  have h := List.find?_some hfp
  exact h

/-- **C3.** Decision numbers through re-rendering: (i) a poll whose
decision number is already set (non-NULL, nonzero) is left completely
unchanged by `render_decision_step` — once assigned, the number never
changes on recomputation or re-rendering; (ii) whenever a rendering
changes a poll's decision number, the poll had no (truthy) number
before, the new number is exactly `get_next_decision_number` of the
prior store, and the computed status was `accepted`, or `rejected`
under the `≥3 votes or closed` display rule; (iii) the assigned value
is positive (hence truthy, so (i) locks it); (iv)
`get_next_decision_number` is 1 when no number is assigned and `max +
1` when a positive maximum `m` exists.  (`check_decision_status`
itself writes nothing: it is a pure function in this embedding, as in
the source.) -/
theorem C3_decision_number_once :
    (∀ (db : DB) (pid : String) (sr sd : Bool) (p : Poll) (n : ℕ),
      findPoll db pid = some p → p.decision_number = some n → n ≠ 0 →
      render_decision_step db pid sr sd = db) ∧
    (∀ (db : DB) (pid : String) (sr sd : Bool) (p q : Poll),
      findPoll db pid = some p →
      findPoll (render_decision_step db pid sr sd) pid = some q →
      q.decision_number ≠ p.decision_number →
      (¬ truthyNum p.decision_number = true) ∧
      q.decision_number = some (get_next_decision_number db) ∧
      ((check_decision_status p (groupCounts db.votes pid)).status = "accepted" ∨
       ((check_decision_status p (groupCounts db.votes pid)).status = "rejected" ∧
         ((rowsFor db.votes pid).length ≥ 3 ∨ p.status = "closed")))) ∧
    (∀ db : DB, 0 < get_next_decision_number db) ∧
    (∀ db : DB,
      (db.polls.filterMap (fun p => p.decision_number) = [] →
        get_next_decision_number db = 1) ∧
      ∀ m, m ∈ db.polls.filterMap (fun p => p.decision_number) →
        (∀ k ∈ db.polls.filterMap (fun p => p.decision_number), k ≤ m) → 0 < m →
        get_next_decision_number db = m + 1) := by
  refine ⟨?_, ?_, get_next_decision_number_pos, ?_⟩
  · intro db pid sr sd p n hfp hdn hn
    apply render_decision_step_truthy db pid sr sd p hfp
    rw [hdn]
    simp [truthyNum, hn]
  · intro db pid sr sd p q hfp hq hne
    rw [render_decision_step_some db pid sr sd p hfp] at hq
    rcases render_decision_core_eq_or db pid p sr sd with heq | ⟨hfalsy, hcond, s, heq⟩
    · rw [heq, hfp] at hq
      exact absurd (congrArg (fun o => Option.map Poll.decision_number o) hq.symm)
        (by simpa using hne)
    · refine ⟨hfalsy, ?_, hcond⟩
      have hpp : (p.poll_id == pid) = true := findPoll_poll_id db pid p hfp
      rw [heq] at hq
      unfold assign_decision_number at hq
      rw [findPoll_updatePoll
            (updatePoll db pid (fun p =>
              { p with decision_number := some (get_next_decision_number db) }))
            pid pid (fun q => { q with decision_status := s }) (fun q => rfl),
          findPoll_updatePoll db pid pid
            (fun p => { p with decision_number := some (get_next_decision_number db) })
            (fun q => rfl), hfp] at hq
      simp only [Option.map_some', hpp, if_true] at hq
      rw [← Option.some_inj.1 hq]
  · intro db
    constructor
    · intro h
      unfold get_next_decision_number
      rw [h]
      rfl
    · intro m hmem hmax hpos
      unfold get_next_decision_number
      have hsome : (db.polls.filterMap (fun p => p.decision_number)).max? = some m :=
        List.max?_eq_some_iff'.2 ⟨hmem, hmax⟩
      rw [hsome]
      simp only []
      rw [if_neg (by omega)]

/-- Witness for C3 on two one-poll stores. -/
theorem C3_decision_number_once_witness :
    render_decision_step
        ⟨[⟨"p", ["За", "Против"], 50, 2, "closed", 2, "binary", some 4, "accepted"⟩], []⟩
        "p" true true
      = ⟨[⟨"p", ["За", "Против"], 50, 2, "closed", 2, "binary", some 4, "accepted"⟩], []⟩ ∧
    (some 1 : Option ℕ) = some (get_next_decision_number
        ⟨[⟨"p", ["За", "Против"], 50, 3, "active", 0, "binary", none, "pending"⟩],
         [⟨"p", 1, "a", 0⟩, ⟨"p", 2, "b", 0⟩, ⟨"p", 3, "c", 0⟩]⟩) ∧
    0 < get_next_decision_number
        ⟨[⟨"p", ["За", "Против"], 50, 2, "closed", 2, "binary", some 4, "accepted"⟩], []⟩ ∧
    get_next_decision_number
        ⟨[⟨"p", ["За", "Против"], 50, 3, "active", 0, "binary", none, "pending"⟩], []⟩ = 1 ∧
    get_next_decision_number
        ⟨[⟨"p", ["За", "Против"], 50, 2, "closed", 2, "binary", some 4, "accepted"⟩], []⟩
      = 4 + 1 := by
  refine ⟨?_, ?_, ?_, ?_, ?_⟩
  · exact C3_decision_number_once.1
      ⟨[⟨"p", ["За", "Против"], 50, 2, "closed", 2, "binary", some 4, "accepted"⟩], []⟩
      "p" true true _ 4 rfl rfl (by decide)
  · -- the rendering of dbB assigns number get_next = 1
    have hgc : groupCounts
        [⟨"p", 1, "a", 0⟩, ⟨"p", 2, "b", 0⟩, ⟨"p", 3, "c", 0⟩] "p" = [(0, 3)] := by decide
    have hacc : (check_decision_status
        (⟨"p", ["За", "Против"], 50, 3, "active", 0, "binary", none, "pending"⟩ : Poll)
        [(0, 3)]).status = "accepted" := by
      rw [check_decision_status_cons _ 0 3 [] (by decide) (by decide),
          if_neg (by decide), if_pos (by decide),
          if_pos ⟨by decide, by norm_num [base_count]⟩]
    have hrender : render_decision_step
        ⟨[⟨"p", ["За", "Против"], 50, 3, "active", 0, "binary", none, "pending"⟩],
         [⟨"p", 1, "a", 0⟩, ⟨"p", 2, "b", 0⟩, ⟨"p", 3, "c", 0⟩]⟩ "p" true true
        = updatePoll (assign_decision_number
            ⟨[⟨"p", ["За", "Против"], 50, 3, "active", 0, "binary", none, "pending"⟩],
             [⟨"p", 1, "a", 0⟩, ⟨"p", 2, "b", 0⟩, ⟨"p", 3, "c", 0⟩]⟩ "p") "p"
            (fun q => { q with decision_status := "accepted" }) := by
      rw [render_decision_step_some
        ⟨[⟨"p", ["За", "Против"], 50, 3, "active", 0, "binary", none, "pending"⟩],
         [⟨"p", 1, "a", 0⟩, ⟨"p", 2, "b", 0⟩, ⟨"p", 3, "c", 0⟩]⟩ "p" true true
        (⟨"p", ["За", "Против"], 50, 3, "active", 0, "binary", none, "pending"⟩ : Poll) rfl]
      unfold render_decision_core
      rw [if_pos ⟨rfl, by decide⟩, if_pos rfl]
      rw [show (groupCounts
        [⟨"p", 1, "a", 0⟩, ⟨"p", 2, "b", 0⟩, ⟨"p", 3, "c", 0⟩] "p") = [(0, 3)] from by decide]
      rw [if_pos hacc, if_pos (by decide)]
    have hq : findPoll (render_decision_step
        ⟨[⟨"p", ["За", "Против"], 50, 3, "active", 0, "binary", none, "pending"⟩],
         [⟨"p", 1, "a", 0⟩, ⟨"p", 2, "b", 0⟩, ⟨"p", 3, "c", 0⟩]⟩ "p" true true) "p"
        = some ⟨"p", ["За", "Против"], 50, 3, "active", 0, "binary", some 1, "accepted"⟩ := by
      rw [hrender]; rfl
    exact (C3_decision_number_once.2.1
      ⟨[⟨"p", ["За", "Против"], 50, 3, "active", 0, "binary", none, "pending"⟩],
       [⟨"p", 1, "a", 0⟩, ⟨"p", 2, "b", 0⟩, ⟨"p", 3, "c", 0⟩]⟩ "p" true true
      _ _ rfl hq (by decide)).2.1
  · exact C3_decision_number_once.2.2.1 _
  · exact (C3_decision_number_once.2.2.2 _).1 rfl
  · exact (C3_decision_number_once.2.2.2 _).2 4 (by decide) (by decide) (by decide)

/-! ### Helper lemmas about the vote store -/

lemma vote_handler_step_closed (db : DB) (pid : String) (uid : ℕ) (uname : String)
    (oid : ℕ) (cv sd : Bool) (p : Poll)
    (hfp : findPoll db pid = some p) (hcl : p.status ≠ "active") :
    vote_handler_step db pid uid uname oid cv sd
      = (render_decision_step db pid true sd, .pollClosed) := by
  unfold vote_handler_step
  rw [hfp]
  dsimp only
  rw [if_pos hcl]

lemma vote_handler_step_active (db : DB) (pid : String) (uid : ℕ) (uname : String)
    (oid : ℕ) (sd : Bool) (p : Poll)
    (hfp : findPoll db pid = some p) (hact : p.status = "active") :
    vote_handler_step db pid uid uname oid true sd
      = (render_decision_step
          (if auto_close_reached (db_after_vote db pid uid uname oid) pid then
            updatePoll (db_after_vote db pid uid uname oid) pid
              (fun q => { q with status := "closed" })
          else db_after_vote db pid uid uname oid) pid true sd,
         .recorded (auto_close_reached (db_after_vote db pid uid uname oid) pid)) := by
  unfold vote_handler_step
  rw [hfp]
  dsimp only
  rw [if_neg (fun h => h hact), if_neg (fun h => h rfl)]

lemma db_after_vote_votes (db : DB) (pid : String) (uid : ℕ) (uname : String) (oid : ℕ) :
    (db_after_vote db pid uid uname oid).votes
      = insertOrReplaceVote db.votes ⟨pid, uid, uname, oid⟩ := rfl

lemma findPoll_db_after_vote (db : DB) (pid : String) (uid : ℕ) (uname : String)
    (oid : ℕ) (p : Poll) (hfp : findPoll db pid = some p) :
    findPoll (db_after_vote db pid uid uname oid) pid
      = some { p with total_voters :=
          distinctVoters (insertOrReplaceVote db.votes ⟨pid, uid, uname, oid⟩) pid } := by
  unfold db_after_vote
  rw [findPoll_updatePoll { db with votes := insertOrReplaceVote db.votes ⟨pid, uid, uname, oid⟩ } pid pid (fun q => { q with total_voters := distinctVoters (insertOrReplaceVote db.votes ⟨pid, uid, uname, oid⟩) pid }) (fun q => rfl)]
  rw [show findPoll { db with votes := insertOrReplaceVote db.votes ⟨pid, uid, uname, oid⟩ } pid
        = findPoll db pid from rfl, hfp]
  simp only [Option.map_some', findPoll_poll_id db pid p hfp, if_true]

lemma findPoll_render_fields (db : DB) (pid : String) (sr sd : Bool) (pid' : String) :
    ∃ g : Poll → Poll,
      (∀ q, (g q).status = q.status ∧ (g q).total_voters = q.total_voters) ∧
      findPoll (render_decision_step db pid sr sd) pid'
        = (findPoll db pid').map g := by
  cases h : findPoll db pid with
  | none =>
    unfold render_decision_step
    rw [h]
    exact ⟨id, by simp, by simp⟩
  | some p =>
    rw [render_decision_step_some db pid sr sd p h]
    rcases render_decision_core_eq_or db pid p sr sd with heq | ⟨_, _, s, heq⟩
    · rw [heq]
      exact ⟨id, by simp, by simp⟩
    · rw [heq]
      unfold assign_decision_number
      rw [findPoll_updatePoll
            (updatePoll db pid (fun q =>
              { q with decision_number := some (get_next_decision_number db) }))
            pid pid' (fun q => { q with decision_status := s }) (fun q => rfl),
          findPoll_updatePoll db pid pid'
            (fun q => { q with decision_number := some (get_next_decision_number db) })
            (fun q => rfl), Option.map_map]
      refine ⟨_, ?_, rfl⟩
      intro q
      by_cases hq : q.poll_id == pid
      · simp [Function.comp, hq]
      · simp [Function.comp, hq]

/-- **C5.** A poll with participant cap 2, currently active with one
recorded voter `u1`: a vote by a second distinct voter `u2` (a) returns
the recorded-with-auto-close outcome, (b) stores the second row (the
poll's rows become exactly the two voters' rows, so `total_voters =
COUNT(DISTINCT user_id) = 2`), and (c) leaves the poll closed with
`total_voters = 2` in the same call; and (d) any subsequent vote attempt
by any user returns the poll-closed outcome and changes neither the vote
rows nor the poll's lifecycle state (`status` stays closed,
`total_voters` stays 2) — the rendering performed on that attempt may
only touch the decision bookkeeping fields covered by C3. -/
theorem C5_cap_two_auto_close (db : DB) (pid : String) (p : Poll)
    (u1 u2 : ℕ) (n1 n2 : String) (o1 o2 : ℕ) (sd1 : Bool)
    (hfp : findPoll db pid = some p)
    (hmp : p.max_participants = 2)
    (hact : p.status = "active")
    (hrows : rowsFor db.votes pid = [⟨pid, u1, n1, o1⟩])
    (hne : u1 ≠ u2) :
    (vote_handler_step db pid u2 n2 o2 true sd1).2 = .recorded true ∧
    rowsFor (vote_handler_step db pid u2 n2 o2 true sd1).1.votes pid
      = [⟨pid, u1, n1, o1⟩, ⟨pid, u2, n2, o2⟩] ∧
    (∃ q, findPoll (vote_handler_step db pid u2 n2 o2 true sd1).1 pid = some q ∧
      q.status = "closed" ∧ q.total_voters = 2) ∧
    (∀ (u3 : ℕ) (n3 : String) (o3 : ℕ) (cv sd2 : Bool),
      (vote_handler_step (vote_handler_step db pid u2 n2 o2 true sd1).1
          pid u3 n3 o3 cv sd2).2 = .pollClosed ∧
      (vote_handler_step (vote_handler_step db pid u2 n2 o2 true sd1).1
          pid u3 n3 o3 cv sd2).1.votes
        = (vote_handler_step db pid u2 n2 o2 true sd1).1.votes ∧
      ∃ r, findPoll (vote_handler_step (vote_handler_step db pid u2 n2 o2 true sd1).1
          pid u3 n3 o3 cv sd2).1 pid = some r ∧
        r.status = "closed" ∧ r.total_voters = 2) := by
  have hT : rowsFor (insertOrReplaceVote db.votes ⟨pid, u2, n2, o2⟩) pid
      = [⟨pid, u1, n1, o1⟩, ⟨pid, u2, n2, o2⟩] := by
    have := insertOrReplaceVote_rowsFor db.votes ⟨pid, u2, n2, o2⟩
      [⟨pid, u1, n1, o1⟩] hrows rfl ?_
    · simpa using this
    · intro r hr
      rw [List.mem_singleton] at hr
      subst hr
      simpa using hne
  have htv : distinctVoters (insertOrReplaceVote db.votes ⟨pid, u2, n2, o2⟩) pid = 2 := by
    unfold distinctVoters
    rw [hT]
    simp only [List.map_cons, List.map_nil]
    rw [List.dedup_cons_of_not_mem (by simpa using hne)]
    simp
  have hfq : findPoll (db_after_vote db pid u2 n2 o2) pid
      = some { p with total_voters := 2 } := by
    rw [findPoll_db_after_vote db pid u2 n2 o2 p hfp, htv]
  have hauto : auto_close_reached (db_after_vote db pid u2 n2 o2) pid = true := by
    unfold auto_close_reached
    rw [hfq]
    simp [hmp]
  have hstep := vote_handler_step_active db pid u2 n2 o2 sd1 p hfp hact
  rw [hauto, if_pos rfl] at hstep
  have hppq : (({ p with total_voters := 2 } : Poll).poll_id == pid) = true :=
    findPoll_poll_id db pid p hfp
  have hfq3 : findPoll (updatePoll (db_after_vote db pid u2 n2 o2) pid
        (fun q => { q with status := "closed" })) pid
      = some { p with total_voters := 2, status := "closed" } := by
    rw [findPoll_updatePoll (db_after_vote db pid u2 n2 o2) pid pid
          (fun q => { q with status := "closed" }) (fun q => rfl), hfq]
    simp only [Option.map_some', hppq, if_true]
  rcases findPoll_render_fields (updatePoll (db_after_vote db pid u2 n2 o2) pid
      (fun q => { q with status := "closed" })) pid true sd1 pid with ⟨g, hg, hmap⟩
  have hdb' : (vote_handler_step db pid u2 n2 o2 true sd1).1
      = render_decision_step (updatePoll (db_after_vote db pid u2 n2 o2) pid
          (fun q => { q with status := "closed" })) pid true sd1 := by
    rw [hstep]
  have hvotes' : (vote_handler_step db pid u2 n2 o2 true sd1).1.votes
      = insertOrReplaceVote db.votes ⟨pid, u2, n2, o2⟩ := by
    rw [hdb', render_decision_step_votes]
    rfl
  have hfind' : findPoll (vote_handler_step db pid u2 n2 o2 true sd1).1 pid
      = some (g { p with total_voters := 2, status := "closed" }) := by
    rw [hdb', hmap, hfq3]
    rfl
  have hgst := hg { p with total_voters := 2, status := "closed" }
  refine ⟨by rw [hstep], ?_, ?_, ?_⟩
  · rw [hvotes', hT]
  · exact ⟨_, hfind', by simp [hgst.1], by simp [hgst.2]⟩
  · intro u3 n3 o3 cv sd2
    have hcl : (g { p with total_voters := 2, status := "closed" }).status ≠ "active" := by
      rw [hgst.1]
      simp
    have hstep2 := vote_handler_step_closed
      (vote_handler_step db pid u2 n2 o2 true sd1).1 pid u3 n3 o3 cv sd2
      (g { p with total_voters := 2, status := "closed" }) hfind' hcl
    rcases findPoll_render_fields (vote_handler_step db pid u2 n2 o2 true sd1).1
        pid true sd2 pid with ⟨g2, hg2, hmap2⟩
    refine ⟨by rw [hstep2], ?_, ?_⟩
    · rw [hstep2]
      exact render_decision_step_votes _ _ _ _
    · refine ⟨g2 (g { p with total_voters := 2, status := "closed" }), ?_, ?_, ?_⟩
      · rw [hstep2]
        simp only []
        rw [hmap2, hfind']
        rfl
      · rw [(hg2 _).1, hgst.1]
      · rw [(hg2 _).2]
        simpa using hgst.2

/-- Witness for C5: cap-2 poll, voters 1, 2, then an attempt by 3. -/
theorem C5_cap_two_auto_close_witness :
    (vote_handler_step
        ⟨[⟨"p", ["За", "Против"], 50, 1, "active", 2, "binary", none, "pending"⟩],
         [⟨"p", 1, "a", 0⟩]⟩ "p" 2 "b" 1 true true).2 = .recorded true ∧
    rowsFor (vote_handler_step
        ⟨[⟨"p", ["За", "Против"], 50, 1, "active", 2, "binary", none, "pending"⟩],
         [⟨"p", 1, "a", 0⟩]⟩ "p" 2 "b" 1 true true).1.votes "p"
      = [⟨"p", 1, "a", 0⟩, ⟨"p", 2, "b", 1⟩] ∧
    (∃ q, findPoll (vote_handler_step
        ⟨[⟨"p", ["За", "Против"], 50, 1, "active", 2, "binary", none, "pending"⟩],
         [⟨"p", 1, "a", 0⟩]⟩ "p" 2 "b" 1 true true).1 "p" = some q ∧
      q.status = "closed" ∧ q.total_voters = 2) ∧
    ((vote_handler_step (vote_handler_step
        ⟨[⟨"p", ["За", "Против"], 50, 1, "active", 2, "binary", none, "pending"⟩],
         [⟨"p", 1, "a", 0⟩]⟩ "p" 2 "b" 1 true true).1 "p" 3 "c" 1 true true).2
        = .pollClosed ∧
     (vote_handler_step (vote_handler_step
        ⟨[⟨"p", ["За", "Против"], 50, 1, "active", 2, "binary", none, "pending"⟩],
         [⟨"p", 1, "a", 0⟩]⟩ "p" 2 "b" 1 true true).1 "p" 3 "c" 1 true true).1.votes
        = (vote_handler_step
        ⟨[⟨"p", ["За", "Против"], 50, 1, "active", 2, "binary", none, "pending"⟩],
         [⟨"p", 1, "a", 0⟩]⟩ "p" 2 "b" 1 true true).1.votes ∧
     ∃ r, findPoll (vote_handler_step (vote_handler_step
        ⟨[⟨"p", ["За", "Против"], 50, 1, "active", 2, "binary", none, "pending"⟩],
         [⟨"p", 1, "a", 0⟩]⟩ "p" 2 "b" 1 true true).1 "p" 3 "c" 1 true true).1 "p"
        = some r ∧ r.status = "closed" ∧ r.total_voters = 2) := by
  have h := C5_cap_two_auto_close
    ⟨[⟨"p", ["За", "Против"], 50, 1, "active", 2, "binary", none, "pending"⟩],
     [⟨"p", 1, "a", 0⟩]⟩ "p"
    ⟨"p", ["За", "Против"], 50, 1, "active", 2, "binary", none, "pending"⟩
    1 2 "a" "b" 0 1 true rfl rfl rfl (by decide) (by decide)
  exact ⟨h.1, h.2.1, h.2.2.1, h.2.2.2 3 "c" 1 true true⟩

/-- **C6.** `determine_voting_type` classifies `["За","Против"]` as
`binary`, `["За","Против","Воздержался"]` as `approval`, and
`["A","B","C","D"]` as `choice`. -/
theorem C6_determine_voting_type_examples :
    determine_voting_type ["За", "Против"] = "binary" ∧
    determine_voting_type ["За", "Против", "Воздержался"] = "approval" ∧
    determine_voting_type ["A", "B", "C", "D"] = "choice" := by
  refine ⟨by decide, by decide, by decide⟩

/-- **C10.** A poll whose `total_voters` is 0 gets decision status
`pending` with percentage 0 (and its own threshold echoed back) from
`check_decision_status`, whatever its lifecycle status — in particular
also when it is already closed; the closed-implies-rejected shortfall
rule is never reached with no votes. -/
theorem C10_no_votes_pending (p : Poll) (votes_data : List (ℕ × ℕ))
    (h : p.total_voters = 0) :
    check_decision_status p votes_data =
      ⟨"pending", 0, p.threshold, none, none⟩ := by
  unfold check_decision_status
  rw [if_pos h]

/-- Witness for C10 on a concrete closed poll. -/
theorem C10_no_votes_pending_witness :
    (Poll.total_voters ⟨"p", ["За", "Против"], 50, 0, "closed", 0, "binary",
        none, "pending"⟩ = 0) ∧
    check_decision_status
        ⟨"p", ["За", "Против"], 50, 0, "closed", 0, "binary", none, "pending"⟩
        [(0, 0)] = ⟨"pending", 0, 50, none, none⟩ :=
  ⟨rfl, C10_no_votes_pending _ _ rfl⟩

/-- **C7, counterexample.** The claim "more than 3 options ⇒ `choice`
unconditionally" is false for the raw option list: four raw options that
normalize (case-fold, strip trailing punctuation, dedupe) to the two
options `за`/`против` are classified `binary`. -/
theorem C7_counterexample :
    (["За", "За.", "за!", "Против"] : List String).length > 3 ∧
    determine_voting_type ["За", "За.", "за!", "Против"] = "binary" :=
  ⟨by decide, by decide⟩

/-- **C7, amended.** When more than 3 options remain after the
normalization/dedup pass, `determine_voting_type` returns `choice`
unconditionally, regardless of keyword matches. -/
theorem C7_amended (options : List String)
    (h : (normalizeOptions options).length > 3) :
    determine_voting_type options = "choice" := by
  have hne : (normalizeOptions options).isEmpty = false := by
    cases h' : normalizeOptions options with
    | nil => rw [h'] at h; simp at h
    | cons a l => simp [List.isEmpty]
  simp only [determine_voting_type, hne, Bool.false_eq_true, if_false]
  split_ifs with h1 h2
  · exact absurd h1.1 (by omega)
  · exact absurd h2.1 (by omega)
  · rfl

/-- Witness for the amended C7 at `["A","B","C","D"]`. -/
theorem C7_amended_witness :
    (normalizeOptions ["A", "B", "C", "D"]).length > 3 ∧
    determine_voting_type ["A", "B", "C", "D"] = "choice" :=
  ⟨by decide, C7_amended _ (by decide)⟩

/-! ### Rate limiter lemmas and C9 -/

lemma cleanup_single (uid : ℕ) (l : List ℚ) (lc now : ℚ)
    (hfresh : ∀ t ∈ l, now - t < RATE_LIMIT_WINDOW) :
    cleanup ⟨[(uid, l)], lc⟩ now
      = ⟨if l.isEmpty then [] else [(uid, l)], lc⟩ := by
  unfold cleanup
  simp only [MAX_USERS_IN_MEMORY, List.length_cons, List.length_nil]
  rw [if_neg (by omega)]
  have hfe : l.filter (fun t => decide (now - t < RATE_LIMIT_WINDOW)) = l :=
    List.filter_eq_self.2 (fun t ht => decide_eq_true (hfresh t ht))
  simp only [List.map_cons, List.map_nil, hfe, List.filter_cons, List.filter_nil]
  cases l with
  | nil => simp
  | cons a as => simp

lemma is_allowed_single (uid limit : ℕ) (l : List ℚ) (lc now : ℚ)
    (hfresh : ∀ t ∈ l, now - t < RATE_LIMIT_WINDOW) :
    is_allowed ⟨[(uid, l)], lc⟩ uid limit now =
      (decide (l.length < limit),
        ⟨[(uid, if l.length < limit then l ++ [now] else l)],
          if now - lc > 60 then now else lc⟩) := by
  have hfe : l.filter (fun t => decide (now - t < RATE_LIMIT_WINDOW)) = l :=
    List.filter_eq_self.2 (fun t ht => decide_eq_true (hfresh t ht))
  unfold is_allowed
  by_cases hcl : now - lc > 60
  · rw [if_pos hcl, cleanup_single uid l lc now hfresh, if_pos hcl]
    by_cases hl : l.isEmpty
    · have hlnil : l = [] := List.isEmpty_iff.1 hl
      subst hlnil
      simp only [if_pos hl]
      simp only [getReqs, List.find?_nil, List.filter_nil, List.length_nil]
      by_cases hlim : 0 < limit
      · rw [if_neg (by omega)]
        simp [setReqs, hlim]
      · rw [if_pos (by omega)]
        simp [setReqs, Nat.not_lt.1 hlim]
    · rw [if_neg hl]
      simp only [getReqs, List.find?_cons, beq_self_eq_true, hfe]
      by_cases hlim : l.length < limit
      · rw [if_neg (by omega)]
        simp [setReqs, hlim]
      · rw [if_pos (by omega)]
        simp [setReqs, hlim]
  · rw [if_neg hcl]
    simp only [getReqs, List.find?_cons, beq_self_eq_true, hfe]
    by_cases hlim : l.length < limit
    · rw [if_neg (by omega)]
      simp [setReqs, hlim]
      rw [if_neg hcl]
    · rw [if_pos (by omega)]
      simp [setReqs, hlim]
      rw [if_neg hcl]

lemma cleanup_single_general (uid : ℕ) (l : List ℚ) (lc now : ℚ) :
    cleanup ⟨[(uid, l)], lc⟩ now =
      ⟨if (l.filter (fun t => decide (now - t < RATE_LIMIT_WINDOW))).isEmpty then []
        else [(uid, l.filter (fun t => decide (now - t < RATE_LIMIT_WINDOW)))], lc⟩ := by
  unfold cleanup
  simp only [MAX_USERS_IN_MEMORY, List.length_cons, List.length_nil]
  rw [if_neg (by omega)]
  simp only [List.map_cons, List.map_nil, List.filter_cons, List.filter_nil]
  cases h : (l.filter (fun t => decide (now - t < RATE_LIMIT_WINDOW))).isEmpty <;> simp [h]

lemma is_allowed_stale (uid limit : ℕ) (l : List ℚ) (lc now : ℚ)
    (hstale : ∀ t ∈ l, ¬(now - t < RATE_LIMIT_WINDOW)) (hlim : 0 < limit) :
    (is_allowed ⟨[(uid, l)], lc⟩ uid limit now).1 = true := by
  have hfe : l.filter (fun t => decide (now - t < RATE_LIMIT_WINDOW)) = [] :=
    List.filter_eq_nil_iff.2 (fun t ht => by simpa using hstale t ht)
  unfold is_allowed
  by_cases hcl : now - lc > 60
  · rw [if_pos hcl, cleanup_single_general uid l lc now, hfe]
    simp only [List.isEmpty_nil, if_pos]
    simp only [getReqs, List.find?_nil, List.filter_nil, List.length_nil]
    rw [if_neg (by omega)]
  · rw [if_neg hcl]
    simp only [getReqs, List.find?_cons, beq_self_eq_true, hfe, List.length_nil]
    rw [if_neg (by omega)]

lemma runCalls_cons (uid limit : ℕ) (rl : RateLimiter) (t : ℚ) (ts : List ℚ) :
    runCalls uid limit rl (t :: ts)
      = ((is_allowed rl uid limit t).1 :: (runCalls uid limit (is_allowed rl uid limit t).2 ts).1,
         (runCalls uid limit (is_allowed rl uid limit t).2 ts).2) := rfl

lemma runCalls_append (uid limit : ℕ) (rl : RateLimiter) (ts1 ts2 : List ℚ) :
    runCalls uid limit rl (ts1 ++ ts2)
      = ((runCalls uid limit rl ts1).1
           ++ (runCalls uid limit (runCalls uid limit rl ts1).2 ts2).1,
         (runCalls uid limit (runCalls uid limit rl ts1).2 ts2).2) := by
  induction ts1 generalizing rl with
  | nil => simp [runCalls]
  | cons t ts ih =>
    rw [List.cons_append, runCalls_cons, runCalls_cons]
    simp [ih]

lemma runCalls_all_allowed (uid limit : ℕ) (ts : List ℚ) :
    ∀ (acc : List ℚ) (c : ℚ),
    acc.length + ts.length ≤ limit →
    (∀ t ∈ ts, ∀ a ∈ acc, t - a < RATE_LIMIT_WINDOW) →
    (∀ t ∈ ts, ∀ t' ∈ ts, t - t' < RATE_LIMIT_WINDOW) →
    (runCalls uid limit ⟨[(uid, acc)], c⟩ ts).1 = List.replicate ts.length true ∧
    ∃ c', (runCalls uid limit ⟨[(uid, acc)], c⟩ ts).2 = ⟨[(uid, acc ++ ts)], c'⟩ := by
  induction ts with
  | nil => intro acc c _ _ _; exact ⟨rfl, c, by simp [runCalls]⟩
  | cons t ts ih =>
    intro acc c hcap hacc hpairs
    have hfresh : ∀ a ∈ acc, t - a < RATE_LIMIT_WINDOW :=
      fun a ha => hacc t (List.mem_cons_self _ _) a ha
    have hlt : acc.length < limit := by
      simp only [List.length_cons] at hcap; omega
    rw [runCalls_cons, is_allowed_single uid limit acc c t hfresh]
    simp only [if_pos hlt]
    have hcap' : (acc ++ [t]).length + ts.length ≤ limit := by
      simp only [List.length_append, List.length_cons, List.length_nil]
      simp only [List.length_cons] at hcap
      omega
    have hacc' : ∀ t' ∈ ts, ∀ a ∈ acc ++ [t], t' - a < RATE_LIMIT_WINDOW := by
      intro t' ht' a ha
      rcases List.mem_append.1 ha with h | h
      · exact hacc t' (List.mem_cons_of_mem _ ht') a h
      · rw [List.mem_singleton] at h
        subst h
        exact hpairs t' (List.mem_cons_of_mem _ ht') a (List.mem_cons_self _ _)
    have hpairs' : ∀ a ∈ ts, ∀ b ∈ ts, a - b < RATE_LIMIT_WINDOW :=
      fun a ha b hb =>
        hpairs a (List.mem_cons_of_mem _ ha) b (List.mem_cons_of_mem _ hb)
    have hih := ih (acc ++ [t]) (if t - c > 60 then t else c) hcap' hacc' hpairs'
    refine ⟨?_, ?_⟩
    · simp only [List.length_cons, List.replicate_succ]
      rw [← hih.1]
      simp [hlt]
    · rcases hih.2 with ⟨c', hc'⟩
      refine ⟨c', ?_⟩
      rw [hc']
      simp

/-- **C9.** From a fresh limiter state, with `limit = 10`, a sequence of
11 `is_allowed` calls by one user whose timestamps all lie within one
sliding window (any two differ by less than `RATE_LIMIT_WINDOW`) yields
`allowed` for the first 10 calls and `denied` for the 11th; a further
call made after the window has elapsed since each of the earlier calls
is allowed again. -/
theorem C9_rate_limiter (uid : ℕ) (c : ℚ) (ts : List ℚ) (t11 t12 : ℚ)
    (hlen : ts.length = 10)
    (hwin : ∀ a ∈ ts ++ [t11], ∀ b ∈ ts ++ [t11], b - a < RATE_LIMIT_WINDOW)
    (hstale : ∀ a ∈ ts, t12 - a ≥ RATE_LIMIT_WINDOW) :
    (runCalls uid 10 ⟨[(uid, [])], c⟩ (ts ++ [t11])).1
      = List.replicate 10 true ++ [false] ∧
    (is_allowed (runCalls uid 10 ⟨[(uid, [])], c⟩ (ts ++ [t11])).2 uid 10 t12).1
      = true := by
  have hmemts : ∀ a ∈ ts, a ∈ ts ++ [t11] := fun a ha => List.mem_append_left _ ha
  have hmemt11 : t11 ∈ ts ++ [t11] := List.mem_append_right _ (List.mem_singleton.2 rfl)
  have h10 := runCalls_all_allowed uid 10 ts [] c (by simp [hlen])
    (by intro t _ a ha; cases ha)
    (fun a ha b hb => hwin b (hmemts b hb) a (hmemts a ha))
  rcases h10.2 with ⟨c', hc'⟩
  rw [runCalls_append, hc']
  have hfresh11 : ∀ a ∈ ([] ++ ts : List ℚ), t11 - a < RATE_LIMIT_WINDOW := by
    intro a ha
    rw [List.nil_append] at ha
    exact hwin a (hmemts a ha) t11 hmemt11
  rw [runCalls_cons, is_allowed_single uid 10 ([] ++ ts) c' t11 hfresh11]
  have hlen' : ([] ++ ts : List ℚ).length = 10 := by simpa using hlen
  have hnotlt : ¬(([] ++ ts : List ℚ).length < 10) := by rw [hlen']; omega
  constructor
  · rw [h10.1, hlen]
    simp [runCalls, hlen', hlen]
  · simp only [runCalls, if_neg hnotlt]
    apply is_allowed_stale
    · intro t ht
      rw [List.nil_append] at ht
      exact not_lt.2 (hstale t ht)
    · norm_num

/-- Witness for C9 at timestamps 100..110 and a late call at 3710. -/
theorem C9_rate_limiter_witness :
    (runCalls 7 10 ⟨[(7, [])], 0⟩
        ([100, 101, 102, 103, 104, 105, 106, 107, 108, 109] ++ [110])).1
      = List.replicate 10 true ++ [false] ∧
    (is_allowed (runCalls 7 10 ⟨[(7, [])], 0⟩
        ([100, 101, 102, 103, 104, 105, 106, 107, 108, 109] ++ [110])).2
      7 10 3710).1 = true :=
  C9_rate_limiter 7 0 [100, 101, 102, 103, 104, 105, 106, 107, 108, 109] 110 3710
    (by norm_num)
    (by norm_num [List.forall_mem_cons, RATE_LIMIT_WINDOW])
    (by norm_num [List.forall_mem_cons, RATE_LIMIT_WINDOW])

/-! ### C8: the template engine -/
lemma allowed_openBrace : allowedVarChar openBrace = false := by decide
lemma allowed_closeBrace : allowedVarChar closeBrace = false := by decide

lemma nameOk_no_brace {v : List Char} (h : nameOkB v = true) :
    ∀ c ∈ v, c ≠ openBrace ∧ c ≠ closeBrace := by
  intro c hc
  unfold nameOkB at h
  simp only [Bool.and_eq_true, List.all_eq_true] at h
  have hall := h.2 c hc
  constructor
  · intro hcon; rw [hcon, allowed_openBrace] at hall; cases hall
  · intro hcon; rw [hcon, allowed_closeBrace] at hall; cases hall

lemma segOk_no_brace {s : List Char} (h : segOkB s = true) :
    ∀ c ∈ s, c ≠ openBrace ∧ c ≠ closeBrace := by
  intro c hc
  unfold segOkB at h
  simp only [List.all_eq_true] at h
  have := h c hc
  simp only [Bool.not_eq_eq_eq_not, Bool.not_true, decide_eq_false_iff_not] at this
  push_neg at this
  exact this

lemma listHas_cons_mono {t pat : List Char} (c : Char) (h : listHas t pat = true) :
    listHas (c :: t) pat = true := by
  unfold listHas
  split_ifs with hs
  · rfl
  · exact h

lemma listHas_append_mono {r pat : List Char} (s : List Char)
    (h : listHas r pat = true) : listHas (s ++ r) pat = true := by
  induction s with
  | nil => simpa using h
  | cons c cs ih => exact listHas_cons_mono c ih

lemma listStarts_self_append (pat r : List Char) :
    listStarts pat (pat ++ r) = true := by
  induction pat with
  | nil => rfl
  | cons c cs ih => simpa [listStarts] using ih

lemma mem_span_listHas {items : List (List Char ⊕ List Char)} {k : List Char}
    (h : (Sum.inr k : List Char ⊕ List Char) ∈ items) :
    listHas (assembleI items) (spanPattern k) = true := by
  induction items with
  | nil => cases h
  | cons it rest ih =>
    rcases List.mem_cons.1 h with heq | hmem
    · subst heq
      unfold assembleI
      have : listStarts (spanPattern k) (spanPattern k ++ assembleI rest) = true :=
        listStarts_self_append _ _
      unfold listHas
      rw [show (openBrace :: (k ++ closeBrace :: assembleI rest))
            = spanPattern k ++ assembleI rest from by simp [spanPattern], this]
      rfl
    · cases it with
      | inl s => exact listHas_append_mono s (ih hmem)
      | inr v =>
        unfold assembleI
        have h1 := listHas_append_mono v (listHas_cons_mono closeBrace (ih hmem))
        exact listHas_cons_mono openBrace h1

lemma findVarsGo_nil (fuel : ℕ) : findVarsGo fuel [] = [] := by
  cases fuel <;> rfl

lemma findVarsGo_cons (fuel : ℕ) (c : Char) (rest : List Char) :
    findVarsGo (fuel + 1) (c :: rest) =
      if c = openBrace then
        if 1 ≤ (rest.takeWhile allowedVarChar).length ∧
            (rest.takeWhile allowedVarChar).length ≤ 30 ∧
            rest.get? (rest.takeWhile allowedVarChar).length = some closeBrace then
          rest.take (rest.takeWhile allowedVarChar).length ::
            findVarsGo fuel (rest.drop ((rest.takeWhile allowedVarChar).length + 1))
        else findVarsGo fuel rest
      else findVarsGo fuel rest := rfl

lemma findVarsGo_congr : ∀ (f1 : ℕ) (s : List Char) (f2 : ℕ),
    s.length ≤ f1 → s.length ≤ f2 → findVarsGo f1 s = findVarsGo f2 s := by
  intro f1
  induction f1 with
  | zero =>
    intro s f2 h1 _
    have hs : s = [] := List.length_eq_zero.mp (Nat.le_zero.mp h1)
    subst hs
    rw [findVarsGo_nil, findVarsGo_nil]
  | succ f ih =>
    intro s f2 h1 h2
    cases s with
    | nil => rw [findVarsGo_nil, findVarsGo_nil]
    | cons c rest =>
      cases f2 with
      | zero => simp at h2
      | succ f2' =>
        rw [findVarsGo_cons, findVarsGo_cons]
        simp only [List.length_cons, Nat.add_le_add_iff_right] at h1 h2
        by_cases hc : c = openBrace
        · rw [if_pos hc, if_pos hc]
          by_cases hr : 1 ≤ (rest.takeWhile allowedVarChar).length ∧
              (rest.takeWhile allowedVarChar).length ≤ 30 ∧
              rest.get? (rest.takeWhile allowedVarChar).length = some closeBrace
          · rw [if_pos hr, if_pos hr]
            congr 1
            apply ih
            · simp only [List.length_drop]; omega
            · simp only [List.length_drop]; omega
          · rw [if_neg hr, if_neg hr]
            exact ih rest f2' h1 h2
        · rw [if_neg hc, if_neg hc]
          exact ih rest f2' h1 h2

lemma findVarsAux_cons_not {c : Char} (t : List Char) (hc : c ≠ openBrace) :
    findVarsAux (c :: t) = findVarsAux t := by
  show findVarsGo (t.length + 1) (c :: t) = findVarsGo t.length t
  rw [findVarsGo_cons, if_neg hc]

lemma findVarsAux_skip {s : List Char} (hs : ∀ c ∈ s, c ≠ openBrace) (r : List Char) :
    findVarsAux (s ++ r) = findVarsAux r := by
  induction s with
  | nil => rfl
  | cons c cs ih =>
    rw [List.cons_append, findVarsAux_cons_not _ (hs c (List.mem_cons_self _ _))]
    exact ih (fun x hx => hs x (List.mem_cons_of_mem _ hx))

lemma takeWhile_name {v : List Char} (hv : ∀ c ∈ v, allowedVarChar c = true)
    (r : List Char) :
    (v ++ closeBrace :: r).takeWhile allowedVarChar = v := by
  induction v with
  | nil => simp [List.takeWhile_cons, allowed_closeBrace]
  | cons c cs ih =>
    rw [List.cons_append, List.takeWhile_cons, hv c (List.mem_cons_self _ _)]
    simp only [if_true]
    rw [ih (fun x hx => hv x (List.mem_cons_of_mem _ hx))]

lemma get?_name (v r : List Char) :
    (v ++ closeBrace :: r).get? v.length = some closeBrace := by
  rw [List.get?_eq_getElem?, List.getElem?_append_right (le_refl _)]
  simp

lemma drop_name (v r : List Char) :
    (v ++ closeBrace :: r).drop (v.length + 1) = r := by
  rw [List.drop_append]
  simp

lemma findVarsAux_span (v r : List Char)
    (hv : ∀ c ∈ v, allowedVarChar c = true)
    (h1 : 1 ≤ v.length) (h30 : v.length ≤ 30) :
    findVarsAux (openBrace :: (v ++ closeBrace :: r)) = v :: findVarsAux r := by
  show findVarsGo ((v ++ closeBrace :: r).length + 1) (openBrace :: (v ++ closeBrace :: r))
      = v :: findVarsGo r.length r
  rw [findVarsGo_cons, if_pos rfl, takeWhile_name hv]
  rw [if_pos ⟨h1, h30, get?_name v r⟩]
  rw [drop_name, List.take_append_of_le_length (le_refl _)]
  rw [findVarsGo_congr _ r r.length
    (by simp only [List.length_append, List.length_cons]; omega) (le_refl _)]
  simp

lemma itemsOk_cons {it : List Char ⊕ List Char} {rest : List (List Char ⊕ List Char)}
    (h : itemsOk (it :: rest) = true) : itemOk it = true ∧ itemsOk rest = true := by
  unfold itemsOk at h ⊢
  simp only [List.all_cons, Bool.and_eq_true] at h
  exact h

lemma nameOk_parts {v : List Char} (h : nameOkB v = true) :
    (∀ c ∈ v, allowedVarChar c = true) ∧ 1 ≤ v.length ∧ v.length ≤ 30 := by
  unfold nameOkB at h
  simp only [Bool.and_eq_true, List.all_eq_true] at h
  refine ⟨h.2, ?_, by have := h.1.2; simpa using this⟩
  cases v with
  | nil => simp at h
  | cons a as => simp

lemma findVarsAux_assembleI {items : List (List Char ⊕ List Char)}
    (h : itemsOk items = true) :
    findVarsAux (assembleI items) = spanNames items := by
  induction items with
  | nil => rfl
  | cons it rest ih =>
    rcases itemsOk_cons h with ⟨hit, hrest⟩
    cases it with
    | inl s =>
      unfold assembleI spanNames
      rw [findVarsAux_skip (fun c hc => (segOk_no_brace hit c hc).1)]
      exact ih hrest
    | inr v =>
      rcases nameOk_parts hit with ⟨hvall, h1, h30⟩
      unfold assembleI spanNames
      rw [findVarsAux_span v (assembleI rest) hvall h1 h30]
      rw [List.filterMap_cons]
      simp only []
      congr 1
      exact ih hrest

lemma replaceGo_nil (pat rep : List Char) (fuel : ℕ) :
    replaceGo pat rep fuel [] = [] := by
  cases fuel <;> rfl

lemma replaceGo_cons (pat rep : List Char) (fuel : ℕ) (c : Char) (rest : List Char) :
    replaceGo pat rep (fuel + 1) (c :: rest) =
      if listStarts pat (c :: rest) then
        rep ++ replaceGo pat rep fuel ((c :: rest).drop pat.length)
      else c :: replaceGo pat rep fuel rest := rfl

lemma replaceGo_congr (pat rep : List Char) (hpat : pat.isEmpty = false) :
    ∀ (f1 : ℕ) (s : List Char) (f2 : ℕ), s.length ≤ f1 → s.length ≤ f2 →
      replaceGo pat rep f1 s = replaceGo pat rep f2 s := by
  have hp1 : 1 ≤ pat.length := by
    cases pat with
    | nil => simp [List.isEmpty] at hpat
    | cons p ps => simp
  intro f1
  induction f1 with
  | zero =>
    intro s f2 h1 _
    have hs : s = [] := List.length_eq_zero.mp (Nat.le_zero.mp h1)
    subst hs
    rw [replaceGo_nil, replaceGo_nil]
  | succ f ih =>
    intro s f2 h1 h2
    cases s with
    | nil => rw [replaceGo_nil, replaceGo_nil]
    | cons c rest =>
      cases f2 with
      | zero => simp at h2
      | succ f2' =>
        rw [replaceGo_cons, replaceGo_cons]
        simp only [List.length_cons, Nat.add_le_add_iff_right] at h1 h2
        by_cases hst : listStarts pat (c :: rest)
        · rw [if_pos hst, if_pos hst]
          congr 1
          apply ih
          · simp only [List.length_drop, List.length_cons]; omega
          · simp only [List.length_drop, List.length_cons]; omega
        · rw [if_neg hst, if_neg hst]
          congr 1
          exact ih rest f2' h1 h2

lemma replaceAll_nil (pat rep : List Char) : replaceAll [] pat rep = [] := by
  unfold replaceAll
  split_ifs <;> rfl

lemma replaceAll_cons (c : Char) (rest pat rep : List Char)
    (hne : pat.isEmpty = false) :
    replaceAll (c :: rest) pat rep =
      if listStarts pat (c :: rest) then
        rep ++ replaceAll ((c :: rest).drop pat.length) pat rep
      else c :: replaceAll rest pat rep := by
  have hp1 : 1 ≤ pat.length := by
    cases pat with
    | nil => simp [List.isEmpty] at hne
    | cons p ps => simp
  have hpe : ¬pat.isEmpty = true := by simp [hne]
  unfold replaceAll
  rw [if_neg hpe, if_neg hpe, if_neg hpe]
  rw [show (c :: rest).length = rest.length + 1 from rfl, replaceGo_cons]
  by_cases hst : listStarts pat (c :: rest)
  · rw [if_pos hst, if_pos hst]
    congr 1
    exact replaceGo_congr pat rep hne _ _ _
      (by simp only [List.length_drop, List.length_cons]; omega) (le_refl _)
  · rw [if_neg hst, if_neg hst]

lemma spanPattern_ne_nil (k : List Char) : (spanPattern k).isEmpty = false := rfl

lemma starts_spanPattern_cons (k : List Char) (c : Char) (t : List Char)
    (hc : c ≠ openBrace) : listStarts (spanPattern k) (c :: t) = false := by
  unfold spanPattern listStarts
  rw [decide_eq_false (fun h => hc h.symm), Bool.false_and]

lemma replaceAll_skip {s : List Char} (hs : ∀ c ∈ s, c ≠ openBrace)
    (r : List Char) (k rep : List Char) :
    replaceAll (s ++ r) (spanPattern k) rep = s ++ replaceAll r (spanPattern k) rep := by
  induction s with
  | nil => rfl
  | cons c cs ih =>
    rw [List.cons_append, replaceAll_cons _ _ _ _ (spanPattern_ne_nil k),
        if_neg (by rw [starts_spanPattern_cons _ _ _ (hs c (List.mem_cons_self _ _))]; simp)]
    rw [List.cons_append]
    congr 1
    exact ih (fun x hx => hs x (List.mem_cons_of_mem _ hx))

lemma starts_name (k : List Char) : ∀ (v : List Char),
    (∀ c ∈ k, c ≠ closeBrace) → (∀ c ∈ v, c ≠ closeBrace) → ∀ r,
    (listStarts (k ++ [closeBrace]) (v ++ closeBrace :: r) = true ↔ k = v) := by
  induction k with
  | nil =>
    intro v _ hv r
    cases v with
    | nil => simp [listStarts]
    | cons c cs =>
      simp only [List.nil_append, List.cons_append, listStarts]
      constructor
      · intro h
        simp only [Bool.and_eq_true, decide_eq_true_eq] at h
        exact absurd h.1.symm (hv c (List.mem_cons_self _ _))
      · intro h; cases h
  | cons a as ih =>
    intro v hk hv r
    cases v with
    | nil =>
      simp only [List.nil_append, List.cons_append, listStarts]
      constructor
      · intro h
        simp only [Bool.and_eq_true, decide_eq_true_eq] at h
        exact absurd h.1 (hk a (List.mem_cons_self _ _))
      · intro h; cases h
    | cons c cs =>
      simp only [List.cons_append, listStarts, Bool.and_eq_true, decide_eq_true_eq]
      have hrec := ih cs (fun x hx => hk x (List.mem_cons_of_mem _ hx))
        (fun x hx => hv x (List.mem_cons_of_mem _ hx)) r
      constructor
      · rintro ⟨hac, hst⟩
        rw [hac, hrec.1 hst]
      · intro h
        injection h with h1 h2
        exact ⟨h1, hrec.2 h2⟩

lemma spanPattern_append (v r : List Char) :
    spanPattern v ++ r = openBrace :: (v ++ closeBrace :: r) := by
  simp [spanPattern]

lemma replaceAll_span (k v r rep : List Char)
    (hk : ∀ c ∈ k, c ≠ closeBrace) (hv : ∀ c ∈ v, c ≠ closeBrace)
    (hvo : ∀ c ∈ v, c ≠ openBrace) :
    replaceAll (spanPattern v ++ r) (spanPattern k) rep =
      (if v = k then rep else spanPattern v) ++ replaceAll r (spanPattern k) rep := by
  rw [spanPattern_append]
  rw [replaceAll_cons _ _ _ _ (spanPattern_ne_nil k)]
  by_cases hvk : v = k
  · subst hvk
    have hstart : listStarts (spanPattern v) (openBrace :: (v ++ closeBrace :: r)) = true := by
      unfold spanPattern listStarts
      rw [decide_eq_true rfl, Bool.true_and]
      exact (starts_name v v hk hv r).2 rfl
    rw [if_pos hstart, if_pos rfl]
    congr 1
    rw [show (openBrace :: (v ++ closeBrace :: r)).drop (spanPattern v).length
          = (v ++ closeBrace :: r).drop (v.length + 1) from by
        simp [spanPattern]]
    rw [drop_name]
  · have hstart : listStarts (spanPattern k) (openBrace :: (v ++ closeBrace :: r)) = false := by
      unfold spanPattern listStarts
      rw [decide_eq_true rfl, Bool.true_and]
      rw [← Bool.not_eq_true]
      intro hcon
      exact hvk ((starts_name k v hk hv r).1 hcon).symm
    rw [if_neg (by rw [hstart]; simp), if_neg hvk]
    rw [replaceAll_skip hvo (closeBrace :: r) k rep]
    rw [replaceAll_cons _ _ _ _ (spanPattern_ne_nil k),
        if_neg (by rw [starts_spanPattern_cons k closeBrace r (by decide)]; simp)]
    simp [spanPattern]

lemma replaceAll_assembleI {items : List (List Char ⊕ List Char)}
    (h : itemsOk items = true) (k rep : List Char)
    (hk : ∀ c ∈ k, c ≠ closeBrace) :
    replaceAll (assembleI items) (spanPattern k) rep
      = assembleI (items.map (replItem k rep)) := by
  induction items with
  | nil => exact replaceAll_nil _ _
  | cons it rest ih =>
    rcases itemsOk_cons h with ⟨hit, hrest⟩
    cases it with
    | inl s =>
      show replaceAll (s ++ assembleI rest) (spanPattern k) rep
        = s ++ assembleI (rest.map (replItem k rep))
      rw [replaceAll_skip (fun c hc => (segOk_no_brace hit c hc).1) _ k rep, ih hrest]
    | inr v =>
      have hv : ∀ c ∈ v, c ≠ closeBrace := fun c hc => (nameOk_no_brace hit c hc).2
      have hvo : ∀ c ∈ v, c ≠ openBrace := fun c hc => (nameOk_no_brace hit c hc).1
      show replaceAll (openBrace :: (v ++ closeBrace :: assembleI rest)) (spanPattern k) rep
        = assembleI (replItem k rep (Sum.inr v) :: rest.map (replItem k rep))
      rw [← spanPattern_append, replaceAll_span k v _ rep hk hv hvo, ih hrest]
      simp only [replItem]
      by_cases hvk : v = k
      · rw [if_pos hvk, if_pos hvk]
        rfl
      · rw [if_neg hvk, if_neg hvk]
        rw [spanPattern_append]
        rfl

lemma itemsOk_map {items : List (List Char ⊕ List Char)}
    (f : (List Char ⊕ List Char) → (List Char ⊕ List Char))
    (hf : ∀ it, itemOk it = true → itemOk (f it) = true)
    (h : itemsOk items = true) : itemsOk (items.map f) = true := by
  unfold itemsOk at h ⊢
  simp only [List.all_eq_true] at h ⊢
  intro it hit
  rcases List.mem_map.1 hit with ⟨it0, hit0, rfl⟩
  exact hf it0 (h it0 hit0)

lemma itemOk_replItem (k rep : List Char) (hrep : segOkB rep = true) (it : List Char ⊕ List Char)
    (h : itemOk it = true) : itemOk (replItem k rep it) = true := by
  cases it with
  | inl s => exact h
  | inr v =>
    simp only [replItem]
    by_cases hvk : v = k
    · rw [if_pos hvk]; exact hrep
    · rw [if_neg hvk]; exact h

lemma replItem_absent {items : List (List Char ⊕ List Char)} {k : List Char}
    (h : (Sum.inr k : List Char ⊕ List Char) ∉ items) (rep : List Char) :
    items.map (replItem k rep) = items := by
  induction items with
  | nil => rfl
  | cons it rest ih =>
    have h1 : (Sum.inr k : List Char ⊕ List Char) ∉ rest :=
      fun hc => h (List.mem_cons_of_mem _ hc)
    rw [List.map_cons, ih h1]
    congr 1
    cases it with
    | inl s => rfl
    | inr v =>
      have hvk : v ≠ k := fun hc => h (by rw [← hc]; exact List.mem_cons_self _ _)
      simp only [replItem, if_neg hvk]

lemma strHas_assembleI_of_mem {items : List (List Char ⊕ List Char)} {k : String}
    (h : (Sum.inr k.data : List Char ⊕ List Char) ∈ items) :
    strHas ⟨assembleI items⟩ (braced k) = true :=
  mem_span_listHas h

lemma coreAux_step (k0 v0 : String) (rest : List (String × String))
    (it : List Char ⊕ List Char) :
    coreAux rest (replItem k0.data v0.data it) = coreAux ((k0, v0) :: rest) it := by
  cases it with
  | inl s => rfl
  | inr v =>
    simp only [replItem, coreAux]
    by_cases hvk : v = k0.data
    · rw [if_pos hvk]
      rw [List.find?_cons_of_pos _ (by simpa using hvk.symm)]
    · rw [if_neg hvk]
      rw [List.find?_cons_of_neg _ (by simpa using fun hc => hvk hc.symm)]

lemma coreAux_skip (k0 v0 : String) (rest : List (String × String))
    (it : List Char ⊕ List Char) (hne : ∀ v, it = Sum.inr v → v ≠ k0.data) :
    coreAux ((k0, v0) :: rest) it = coreAux rest it := by
  cases it with
  | inl s => rfl
  | inr v =>
    simp only [coreAux]
    rw [List.find?_cons_of_neg _ (by simpa using fun hc => hne v rfl hc.symm)]

lemma substCore_assembleI (values : List (String × String)) :
    ∀ items, itemsOk items = true →
    (∀ kv ∈ values, (∀ c ∈ (kv : String × String).1.data, c ≠ closeBrace) ∧
      segOkB (kv : String × String).2.data = true) →
    values.foldl (fun res vv =>
        if strHas res (braced vv.1) then strReplace res (braced vv.1) vv.2 else res)
      ⟨assembleI items⟩
      = ⟨assembleI (items.map (coreAux values))⟩ := by
  induction values with
  | nil =>
    intro items _ _
    simp only [List.foldl_nil]
    congr 2
    symm
    calc items.map (coreAux []) = items.map id := List.map_eq_map_iff.mpr (fun it _ => by
          cases it <;> rfl)
      _ = items := List.map_id items
  | cons kv rest ih =>
    intro items hok hvals
    have hkv := hvals kv (List.mem_cons_self _ _)
    have hvals' := fun kv' h' => hvals kv' (List.mem_cons_of_mem _ h')
    rw [List.foldl_cons]
    by_cases hguard : strHas ⟨assembleI items⟩ (braced kv.1) = true
    · rw [if_pos hguard]
      have hrepl : strReplace ⟨assembleI items⟩ (braced kv.1) kv.2
          = ⟨assembleI (items.map (replItem kv.1.data kv.2.data))⟩ := by
        show (⟨replaceAll (assembleI items) (spanPattern kv.1.data) kv.2.data⟩ : String)
          = ⟨assembleI (items.map (replItem kv.1.data kv.2.data))⟩
        rw [replaceAll_assembleI hok kv.1.data kv.2.data hkv.1]
      rw [hrepl]
      rw [ih (items.map (replItem kv.1.data kv.2.data))
          (itemsOk_map _ (itemOk_replItem kv.1.data kv.2.data hkv.2) hok) hvals']
      congr 2
      rw [List.map_map]
      apply List.map_eq_map_iff.mpr
      intro it _
      show coreAux rest (replItem kv.1.data kv.2.data it) = coreAux (kv :: rest) it
      rw [coreAux_step kv.1 kv.2 rest it]
    · rw [if_neg (by simpa using hguard)]
      have habs : (Sum.inr kv.1.data : List Char ⊕ List Char) ∉ items := by
        intro hc
        exact hguard (strHas_assembleI_of_mem hc)
      rw [ih items hok hvals']
      congr 2
      apply List.map_eq_map_iff.mpr
      intro it hit
      symm
      apply coreAux_skip
      intro v hv hvk
      subst hv
      subst hvk
      exact habs hit

lemma insertLe_mem {α : Type} (le : α → α → Bool) (x a : α) (l : List α) :
    a ∈ insertLe le x l ↔ a = x ∨ a ∈ l := by
  induction l with
  | nil => simp [insertLe]
  | cons y ys ih =>
    unfold insertLe
    split_ifs with h
    · simp [List.mem_cons]
    · simp only [List.mem_cons, ih]
      tauto

lemma sortLe_mem {α : Type} (le : α → α → Bool) (a : α) (l : List α) :
    a ∈ sortLe le l ↔ a ∈ l := by
  induction l with
  | nil => simp [sortLe]
  | cons y ys ih =>
    unfold sortLe
    rw [insertLe_mem, ih, List.mem_cons]

lemma insertLe_pairwise {α : Type} (le : α → α → Bool)
    (htot : ∀ a b, le a b = true ∨ le b a = true)
    (htrans : ∀ a b c, le a b = true → le b c = true → le a c = true)
    (x : α) (l : List α) (h : l.Pairwise (fun a b => le a b = true)) :
    (insertLe le x l).Pairwise (fun a b => le a b = true) := by
  induction l with
  | nil => simp [insertLe]
  | cons y ys ih =>
    rcases List.pairwise_cons.1 h with ⟨hy, hys⟩
    unfold insertLe
    split_ifs with hxy
    · refine List.pairwise_cons.2 ⟨?_, h⟩
      intro b hb
      rcases List.mem_cons.1 hb with heq | hb
      · subst heq
        exact hxy
      · exact htrans x y b hxy (hy b hb)
    · refine List.pairwise_cons.2 ⟨?_, ih hys⟩
      intro b hb
      rcases (insertLe_mem le x b ys).1 hb with heq | hb
      · subst heq
        rcases htot b y with h1 | h1
        · exact absurd h1 hxy
        · exact h1
      · exact hy b hb

lemma sortLe_pairwise {α : Type} (le : α → α → Bool)
    (htot : ∀ a b, le a b = true ∨ le b a = true)
    (htrans : ∀ a b c, le a b = true → le b c = true → le a c = true)
    (l : List α) : (sortLe le l).Pairwise (fun a b => le a b = true) := by
  induction l with
  | nil => simp [sortLe]
  | cons y ys ih => exact insertLe_pairwise le htot htrans y (sortLe le ys) ih

lemma insertLe_nodup {α : Type} (le : α → α → Bool) (x : α) (l : List α)
    (hx : x ∉ l) (h : l.Nodup) : (insertLe le x l).Nodup := by
  induction l with
  | nil => simp [insertLe]
  | cons y ys ih =>
    rcases List.nodup_cons.1 h with ⟨hy, hys⟩
    have hxy : x ≠ y := fun hc => hx (hc ▸ List.mem_cons_self _ _)
    have hxys : x ∉ ys := fun hc => hx (List.mem_cons_of_mem _ hc)
    unfold insertLe
    split_ifs with hle
    · exact List.nodup_cons.2 ⟨hx, h⟩
    · refine List.nodup_cons.2 ⟨?_, ih hxys hys⟩
      rw [insertLe_mem]
      rintro (rfl | hc)
      · exact hxy rfl
      · exact hy hc

lemma sortLe_nodup {α : Type} (le : α → α → Bool) (l : List α) (h : l.Nodup) :
    (sortLe le l).Nodup := by
  induction l with
  | nil => simp [sortLe]
  | cons y ys ih =>
    rcases List.nodup_cons.1 h with ⟨hy, hys⟩
    exact insertLe_nodup le y (sortLe le ys)
      (fun hc => hy ((sortLe_mem le y ys).1 hc)) (ih hys)

lemma extract_variables_pairwise_lt (t : String) :
    (extract_variables t).Pairwise (· < ·) := by
  unfold extract_variables
  have hle := sortLe_pairwise (fun a b : String => decide (a ≤ b))
    (fun a b => by rcases le_total a b with h | h <;> simp [h])
    (fun a b c hab hbc => by
      simp only [decide_eq_true_eq] at hab hbc ⊢
      exact le_trans hab hbc)
    (findVars t).dedup
  have hnd := sortLe_nodup (fun a b : String => decide (a ≤ b))
    (findVars t).dedup (List.nodup_dedup _)
  have hand := List.Pairwise.and hle (List.Pairwise.imp (fun h => h) hnd)
  exact hand.imp (fun h => lt_of_le_of_ne (by simpa using h.1) h.2)

lemma itemOk_coreAux (values : List (String × String))
    (hvals : ∀ kv ∈ values, segOkB (kv : String × String).2.data = true)
    (it : List Char ⊕ List Char) (h : itemOk it = true) :
    itemOk (coreAux values it) = true := by
  cases it with
  | inl s => exact h
  | inr v =>
    simp only [coreAux]
    cases hf : values.find? (fun kv => kv.1.data == v) with
    | none => exact h
    | some kv => exact hvals kv (List.mem_of_find?_eq_some hf)

lemma itemOk_bracketAux (it : List Char ⊕ List Char) (h : itemOk it = true) :
    itemOk (bracketAux it) = true := by
  cases it with
  | inl s => exact h
  | inr v =>
    simp only [bracketAux]
    show segOkB ('[' :: v ++ [']']) = true
    unfold segOkB
    simp only [List.all_eq_true]
    intro c hc
    have hc' : c = '[' ∨ c ∈ v ∨ c = ']' := by
      simpa [or_assoc] using hc
    simp only [Bool.not_eq_eq_eq_not, Bool.not_true, decide_eq_false_iff_not]
    push_neg
    rcases hc' with rfl | hc' | rfl
    · exact ⟨by decide, by decide⟩
    · exact nameOk_no_brace h c hc'
    · exact ⟨by decide, by decide⟩

lemma mem_spanNames {items : List (List Char ⊕ List Char)} {v : List Char} :
    v ∈ spanNames items ↔ (Sum.inr v : List Char ⊕ List Char) ∈ items := by
  unfold spanNames
  rw [List.mem_filterMap]
  constructor
  · rintro ⟨it, hit, hv⟩
    cases it with
    | inl s => simp at hv
    | inr w =>
      simp only [Option.some_inj] at hv
      rw [← hv] at *
      exact hit
  · intro h
    exact ⟨Sum.inr v, h, rfl⟩

lemma nameOk_of_mem {items : List (List Char ⊕ List Char)} {v : List Char}
    (h : itemsOk items = true) (hm : (Sum.inr v : List Char ⊕ List Char) ∈ items) :
    nameOkB v = true := by
  unfold itemsOk at h
  simp only [List.all_eq_true] at h
  exact h (Sum.inr v) hm

lemma bracket_foldl (names : List String) :
    ∀ items, itemsOk items = true →
    (∀ n ∈ names, ∀ c ∈ (n : String).data, c ≠ openBrace ∧ c ≠ closeBrace) →
    (∀ v, (Sum.inr v : List Char ⊕ List Char) ∈ items → (⟨v⟩ : String) ∈ names) →
    names.foldl (fun res v => strReplace res (braced v) (bracketed v)) ⟨assembleI items⟩
      = ⟨assembleI (items.map bracketAux)⟩ := by
  induction names with
  | nil =>
    intro items hok _ hmem
    simp only [List.foldl_nil]
    congr 2
    symm
    calc items.map bracketAux = items.map id := List.map_eq_map_iff.mpr (fun it hit => by
          cases it with
          | inl s => rfl
          | inr v => exact absurd (hmem v hit) (List.not_mem_nil _))
      _ = items := List.map_id items
  | cons n0 rest ih =>
    intro items hok hbr hmem
    have hn0 := hbr n0 (List.mem_cons_self _ _)
    rw [List.foldl_cons]
    have hstep : strReplace ⟨assembleI items⟩ (braced n0) (bracketed n0)
        = ⟨assembleI (items.map (replItem n0.data ('[' :: n0.data ++ [']'])))⟩ := by
      show (⟨replaceAll (assembleI items) (spanPattern n0.data)
            ('[' :: n0.data ++ [']'])⟩ : String)
        = ⟨assembleI (items.map (replItem n0.data ('[' :: n0.data ++ [']'])))⟩
      rw [replaceAll_assembleI hok n0.data _ (fun c hc => (hn0 c hc).2)]
    rw [hstep]
    have hbok : segOkB ('[' :: n0.data ++ [']']) = true := by
      unfold segOkB
      simp only [List.all_eq_true]
      intro c hc
      have hc' : c = '[' ∨ c ∈ n0.data ∨ c = ']' := by
        simpa [or_assoc] using hc
      simp only [Bool.not_eq_eq_eq_not, Bool.not_true, decide_eq_false_iff_not]
      push_neg
      rcases hc' with rfl | hc' | rfl
      · exact ⟨by decide, by decide⟩
      · exact hn0 c hc'
      · exact ⟨by decide, by decide⟩
    have hok' := itemsOk_map _ (itemOk_replItem n0.data _ hbok) hok
    have hmem' : ∀ v, (Sum.inr v : List Char ⊕ List Char)
        ∈ items.map (replItem n0.data ('[' :: n0.data ++ [']'])) → (⟨v⟩ : String) ∈ rest := by
      intro v hv
      rcases List.mem_map.1 hv with ⟨it0, hit0, heq⟩
      cases it0 with
      | inl s => simp [replItem] at heq
      | inr w =>
        have hwk : w ≠ n0.data := by
          intro hc
          rw [show replItem n0.data ('[' :: n0.data ++ [']']) (Sum.inr w)
                = if w = n0.data then Sum.inl ('[' :: n0.data ++ [']']) else Sum.inr w
              from rfl, if_pos hc] at heq
          cases heq
        rw [show replItem n0.data ('[' :: n0.data ++ [']']) (Sum.inr w)
              = if w = n0.data then Sum.inl ('[' :: n0.data ++ [']']) else Sum.inr w
            from rfl, if_neg hwk] at heq
        injection heq with hwv
        subst hwv
        have hin := hmem w hit0
        rcases List.mem_cons.1 hin with hc | hin
        · exact absurd (congrArg String.data hc) hwk
        · exact hin
    rw [ih _ hok' (fun n hn => hbr n (List.mem_cons_of_mem _ hn)) hmem']
    congr 2
    rw [List.map_map]
    apply List.map_eq_map_iff.mpr
    intro it _
    cases it with
    | inl s => rfl
    | inr v =>
      show bracketAux (replItem n0.data ('[' :: n0.data ++ [']']) (Sum.inr v))
        = bracketAux (Sum.inr v)
      by_cases hvk : v = n0.data
      · rw [show replItem n0.data ('[' :: n0.data ++ [']']) (Sum.inr v)
              = if v = n0.data then Sum.inl ('[' :: n0.data ++ [']']) else Sum.inr v
            from rfl, if_pos hvk]
        simp only [bracketAux]
        rw [hvk]
      · rw [show replItem n0.data ('[' :: n0.data ++ [']']) (Sum.inr v)
              = if v = n0.data then Sum.inl ('[' :: n0.data ++ [']']) else Sum.inr v
            from rfl, if_neg hvk]

/-- **C8, counterexample.** Substitution can create a brand-new variable
span, so the round-trip fails even when every extracted variable is
supplied.  For the text `\x7bb\x7ba\x7dc\x7d`, the only extracted
variable is `a` (braces are excluded from the character class, so the
outer pair is not a match); supplying `a = x` turns the text into
`\x7bbxc\x7d`, whose fresh span `\x7bbxc\x7d` is then bracketed by the
unresolved-variable fallback: the result is `[bxc]`, not the text with
each extracted span replaced. -/
theorem C8_counterexample :
    extract_variables "\x7bb\x7ba\x7dc\x7d" = ["a"] ∧
    substitute_variables "\x7bb\x7ba\x7dc\x7d" [("a", "x")] = "[bxc]" ∧
    substitute_variables "\x7bb\x7ba\x7dc\x7d" [("a", "x")] ≠ "\x7bbxc\x7d" :=
  ⟨by decide, by decide, by decide⟩

/-- **C8 (amended).** On texts whose braces all belong to well-formed
variable spans — presented as item lists of brace-free segments and
`\x7bname\x7d` spans with legal names — and for values with brace-free
keys and values: (1) `extract_variables` is strictly sorted, hence
de-duplicated; (2) it returns exactly the de-duplicated regex matches;
(3) the matches of the scan are exactly the span names in order;
(4) `substitute_variables` replaces each span whose name is supplied by
its value and each remaining span by `[name]`, leaving segments
untouched — in particular, when every span name is supplied the result
is the text with each span replaced by its value. -/
theorem C8_amended_template_engine :
    (∀ t : String, (extract_variables t).Pairwise (fun a b => a < b)) ∧
    (∀ t : String, ∀ v : String, v ∈ extract_variables t ↔ v ∈ findVars t) ∧
    (∀ items : List (List Char ⊕ List Char), itemsOk items = true →
      findVars ⟨assembleI items⟩ = (spanNames items).map (fun l => ⟨l⟩)) ∧
    (∀ (items : List (List Char ⊕ List Char)) (values : List (String × String)),
      itemsOk items = true →
      (∀ kv ∈ values, segOkB (kv : String × String).1.data = true ∧
        segOkB (kv : String × String).2.data = true) →
      substitute_variables ⟨assembleI items⟩ values
        = ⟨assembleI (items.map (substItem values))⟩) := by
  refine ⟨extract_variables_pairwise_lt, ?_, ?_, ?_⟩
  · intro t v
    unfold extract_variables
    rw [sortLe_mem, List.mem_dedup]
  · intro items h
    show (findVarsAux (assembleI items)).map (fun l => (⟨l⟩ : String))
        = (spanNames items).map (fun l => (⟨l⟩ : String))
    rw [findVarsAux_assembleI h]
  · intro items values hok hvals
    have hvals2 : ∀ kv ∈ values, segOkB (kv : String × String).2.data = true :=
      fun kv hkv => (hvals kv hkv).2
    have hkeys : ∀ kv ∈ values,
        (∀ c ∈ (kv : String × String).1.data, c ≠ closeBrace) ∧
        segOkB (kv : String × String).2.data = true :=
      fun kv hkv =>
        ⟨fun c hc => (segOk_no_brace (hvals kv hkv).1 c hc).2, (hvals kv hkv).2⟩
    have hok1 : itemsOk (items.map (coreAux values)) = true :=
      itemsOk_map (coreAux values) (itemOk_coreAux values hvals2) hok
    have hcore := substCore_assembleI values items hok hkeys
    have hfv : findVars ⟨assembleI (items.map (coreAux values))⟩
        = (spanNames (items.map (coreAux values))).map (fun l => (⟨l⟩ : String)) := by
      show (findVarsAux (assembleI (items.map (coreAux values)))).map
          (fun l => (⟨l⟩ : String)) = _
      rw [findVarsAux_assembleI hok1]
    have hnb : ∀ n ∈ (spanNames (items.map (coreAux values))).map
          (fun l => (⟨l⟩ : String)),
        ∀ c ∈ (n : String).data, c ≠ openBrace ∧ c ≠ closeBrace := by
      intro n hn c hc
      rcases List.mem_map.1 hn with ⟨l, hl, rfl⟩
      exact nameOk_no_brace (nameOk_of_mem hok1 (mem_spanNames.1 hl)) c hc
    have hin : ∀ v, (Sum.inr v : List Char ⊕ List Char) ∈ items.map (coreAux values) →
        (⟨v⟩ : String) ∈ (spanNames (items.map (coreAux values))).map
          (fun l => (⟨l⟩ : String)) := by
      intro v hv
      exact List.mem_map_of_mem _ (mem_spanNames.2 hv)
    simp only [substitute_variables]
    rw [hcore, hfv]
    rw [bracket_foldl _ _ hok1 hnb hin]
    congr 2
    rw [List.map_map]
    apply List.map_eq_map_iff.mpr
    intro it hit
    cases it with
    | inl s => rfl
    | inr v =>
      show bracketAux (coreAux values (Sum.inr v)) = substItem values (Sum.inr v)
      cases hf : values.find? (fun kv => kv.1.data == v) with
      | some kv => simp only [coreAux, substItem, hf, bracketAux]
      | none => simp only [coreAux, substItem, hf, bracketAux]

/-- **C8 (amended), witness**: the concrete template
`Вопрос по \x7bТема\x7d?` with the value `Тема = Бюджет`. -/
theorem C8_amended_template_engine_witness :
    itemsOk [Sum.inl "Вопрос по ".data, Sum.inr "Тема".data, Sum.inl "?".data] = true ∧
    substitute_variables
        ⟨assembleI [Sum.inl "Вопрос по ".data, Sum.inr "Тема".data, Sum.inl "?".data]⟩
        [("Тема", "Бюджет")]
      = ⟨assembleI ([Sum.inl "Вопрос по ".data, Sum.inr "Тема".data,
          Sum.inl "?".data].map (substItem [("Тема", "Бюджет")]))⟩ ∧
    findVars ⟨assembleI [Sum.inl "Вопрос по ".data, Sum.inr "Тема".data,
        Sum.inl "?".data]⟩ = ["Тема"] :=
  ⟨by decide,
   C8_amended_template_engine.2.2.2 _ _ (by decide) (by decide),
   by rw [C8_amended_template_engine.2.2.1 _ (by decide)]; rfl⟩

end PollsBot
